import Mathlib

/-!
Termite: worker daemon admission, RpcFs caching, and shim binary resolution.

A shallow embedding of `termite/worker.go`, `termite/rpcfs.go` and
`bin/tool/main.go`, followed by theorems about the embedded functions.

Conventions of the embedding:

* a Go `map[string]V` is an association list (`GoMap V`); assignment replaces
  the binding of the key, deletion removes it, and a lookup returns the
  binding together with the `ok` flag as an `Option`;
* Go `int` values are modelled by `Int`; the one arithmetic loop of the sources
  (`getMirror`) is shown to stay between 0 and `maxJobCount` in every state the
  daemon reaches (`usedJobs_in_range`), so that no value wraps around;
* a method with a pointer receiver takes the receiver state as an argument and
  returns the new state next to its results;
* an RPC to the master is a call of a function of the `FsServer` record
  (`none` is a failed call), and every function that can issue RPCs returns the
  list of calls it issued;
* a call that dereferences a nil pointer ends in `Res.panic`;
* the goroutines of `FetchHash` are a step function on the positions of the
  goroutines, the holder of `fetchMutex`, `fetchMap` and the cache.
-/

namespace Termite

/-! ## Go maps -/

/-- A Go `map[string]V`, as the list of its bindings. -/
abbrev GoMap (V : Type) := List (String × V)

namespace GoMap

variable {V : Type}

/-- Lookup `v, ok := m[k]`. -/
def get (m : GoMap V) (k : String) : Option V :=
  List.lookup k m

/-- Assignment `m[k] = v`. -/
def set (m : GoMap V) (k : String) (v : V) : GoMap V :=
  (k, v) :: m.filter (fun e => e.1 != k)

/-- Deletion `m[k] = nil, false`. -/
def delete (m : GoMap V) (k : String) : GoMap V :=
  m.filter (fun e => e.1 != k)

end GoMap

/-! ## worker.go -/

/-- A `net.Conn`, reduced to what the daemon reads from it: the printed remote
address. -/
structure Conn where
  remoteAddr : String
  deriving DecidableEq, Repr

/-- Modelled from the spec: the `Mirror` struct (its declaration is in a file
that is not part of the sources at hand). "A session handle holding: ... two
net connections (forward RPC server, reverse RPC client), `maxJobCount` (jobs
granted), ... `writableRoot`"; `key` is the field `getMirror` assigns. -/
structure Mirror where
  rpcConn : Conn
  revConn : Conn
  maxJobCount : Int
  key : String
  writableRoot : String
  deriving DecidableEq, Repr

/-- The fields of `WorkerDaemon` that `getMirror`, `CreateMirror` and
`DropMirror` read or write. -/
structure WorkerDaemon where
  maxJobCount : Int
  mirrorMap : GoMap Mirror
  deriving DecidableEq, Repr

/-- Modelled from the spec: `NewMirror` (not part of the sources at hand)
constructs "a Mirror bound to those connections"; the remaining fields have
their zero values until `getMirror` and `CreateMirror` assign them. -/
def NewMirror (rpcConn revConn : Conn) : Mirror :=
  { rpcConn := rpcConn, revConn := revConn, maxJobCount := 0, key := "", writableRoot := "" }

/-- The loop `used := 0; for _, v := range me.mirrorMap { used += v.maxJobCount }`. -/
def usedJobs (mirrorMap : GoMap Mirror) : Int :=
  mirrorMap.foldl (fun used e => used + e.2.maxJobCount) 0

/-- The method `WorkerDaemon.getMirror`: the new daemon state and the returned
`(*Mirror, os.Error)`. -/
def getMirror (me : WorkerDaemon) (rpcConn revConn : Conn) (reserveCount : Int) :
    WorkerDaemon × Except String Mirror :=
  if reserveCount ≤ 0 then
    (me, .error "must ask positive jobcount")
  else
    let used := usedJobs me.mirrorMap
    let remaining := me.maxJobCount - used
    if remaining ≤ 0 then
      (me, .error "no processes available")
    else
      let reserveCount := if remaining < reserveCount then remaining else reserveCount
      let mirror := NewMirror rpcConn revConn
      let mirror := { mirror with maxJobCount := reserveCount }
      let key := rpcConn.remoteAddr
      let mirror := { mirror with key := key }
      ({ me with mirrorMap := me.mirrorMap.set key mirror }, .ok mirror)

/-- The constructor `NewWorkerDaemon`, for the fields modelled here. -/
def NewWorkerDaemon (jobs : Int) : WorkerDaemon :=
  { maxJobCount := jobs, mirrorMap := [] }

structure CreateMirrorRequest where
  RpcId : String
  RevRpcId : String
  WritableRoot : String
  MaxJobCount : Int
  deriving DecidableEq, Repr

structure CreateMirrorResponse where
  GrantedJobCount : Int
  deriving DecidableEq, Repr

/-- The method `WorkerDaemon.CreateMirror`. `WaitConnection` is the function from
connection ids to the connections that arrive under them. The mirror returned by
`getMirror` is the one stored in the map, so the assignment to
`mirror.writableRoot` is an update of the map entry. The result is the new
state, the reply, and the returned error (`none` for `nil`). -/
def CreateMirror (WaitConnection : String → Conn) (me : WorkerDaemon)
    (req : CreateMirrorRequest) (rep : CreateMirrorResponse) :
    WorkerDaemon × CreateMirrorResponse × Option String :=
  let rpcConn := WaitConnection req.RpcId
  let revConn := WaitConnection req.RevRpcId
  match getMirror me rpcConn revConn req.MaxJobCount with
  | (me, .error err) => (me, rep, some err)
  | (me, .ok mirror) =>
    let mirror := { mirror with writableRoot := req.WritableRoot }
    ({ me with mirrorMap := me.mirrorMap.set mirror.key mirror },
      { rep with GrantedJobCount := mirror.maxJobCount }, none)

/-- The method `WorkerDaemon.DropMirror`. -/
def DropMirror (me : WorkerDaemon) (mirror : Mirror) : WorkerDaemon :=
  { me with mirrorMap := me.mirrorMap.delete mirror.key }

/-- One call on the daemon: `getMirror`, `CreateMirror` or `DropMirror`. -/
inductive DaemonOp where
  | get (rpcConn revConn : Conn) (reserveCount : Int)
  | create (req : CreateMirrorRequest)
  | drop (mirror : Mirror)

/-- The daemon state after one call. -/
def DaemonOp.apply (WaitConnection : String → Conn) (me : WorkerDaemon) :
    DaemonOp → WorkerDaemon
  | .get rpcConn revConn reserveCount => (getMirror me rpcConn revConn reserveCount).1
  | .create req => (CreateMirror WaitConnection me req ⟨0⟩).1
  | .drop mirror => DropMirror me mirror

/-- The daemon state after a sequence of calls. -/
def runOps (WaitConnection : String → Conn) (me : WorkerDaemon) (ops : List DaemonOp) :
    WorkerDaemon :=
  ops.foldl (DaemonOp.apply WaitConnection) me

/-- The sum of `maxJobCount` over the mirrors of a map. -/
def reservedJobs (mirrorMap : GoMap Mirror) : Int :=
  (mirrorMap.map (fun e => e.2.maxJobCount)).sum

/-! ## Library functions used by rpcfs.go and main.go -/

/-- The function `strings.TrimLeft(s, cutset)`: `s` without its leading
characters that occur in `cutset`. -/
def strings.TrimLeft (s cutset : String) : String :=
  ⟨s.data.dropWhile (fun c => cutset.data.contains c)⟩

/-- The function `filepath.Split(path)`: splits immediately after the final
separator, so that `path = dir ++ file`; without a separator `dir` is empty. -/
def filepath.Split (path : String) : String × String :=
  (⟨(path.data.reverse.dropWhile (fun c => c != '/')).reverse⟩,
   ⟨(path.data.reverse.takeWhile (fun c => c != '/')).reverse⟩)

/-- The pieces of a character list between occurrences of `sep`. -/
def splitChars (sep : Char) : List Char → List (List Char)
  | [] => [[]]
  | c :: cs =>
    if c = sep then [] :: splitChars sep cs
    else
      match splitChars sep cs with
      | [] => [[c]]
      | x :: xs => (c :: x) :: xs

/-- The function `filepath.SplitList(path)`: the elements of a `:`-separated
list; the empty string has no elements. -/
def filepath.SplitList (path : String) : List String :=
  if path = "" then [] else (splitChars ':' path.data).map String.mk

/-- One step of `filepath.Clean` on the stack of kept path elements (last kept
element first). -/
def cleanStep (rooted : Bool) (stack : List (List Char)) (elem : List Char) :
    List (List Char) :=
  if elem = [] ∨ elem = ['.'] then stack
  else if elem = ['.', '.'] then
    match stack with
    | [] => if rooted then [] else [elem]
    | top :: rest => if top = ['.', '.'] then elem :: stack else rest
  else elem :: stack

/-- The function `filepath.Clean(path)`: the shortest equivalent path by
lexical processing (multiple separators collapse, `.` elements vanish, an
inner `..` cancels the element before it, a `..` directly under the root
vanishes, and the empty result is `.`). -/
def filepath.Clean (path : String) : String :=
  let rooted := path.data.head? = some '/'
  let stack := (splitChars '/' path.data).foldl (cleanStep rooted) []
  let body := List.intercalate ['/'] stack.reverse
  let out := if rooted then '/' :: body else body
  if out = [] then "." else ⟨out⟩

/-- The function `filepath.Join(a, b)`: starting at the first non-empty
element, the elements joined by the separator and cleaned; the empty string
when every element is empty. -/
def filepath.Join (a b : String) : String :=
  if a != "" then filepath.Clean (a ++ "/" ++ b)
  else if b != "" then filepath.Clean b
  else ""

/-- A `fuse.Status`: an errno value. -/
structure fuse.Status where
  errno : Nat
  deriving DecidableEq, Repr

def fuse.OK : fuse.Status := ⟨0⟩
def fuse.EPERM : fuse.Status := ⟨1⟩
def fuse.ENOENT : fuse.Status := ⟨2⟩
def fuse.EINVAL : fuse.Status := ⟨22⟩

/-- The method `Status.Ok()`. -/
def fuse.Status.Ok (me : fuse.Status) : Bool := me == fuse.OK

/-- The constant `fuse.O_ANYWRITE`:
`O_WRONLY | O_RDWR | O_APPEND | O_CREATE | O_TRUNC` with the Linux values. -/
def fuse.O_ANYWRITE : Nat := 0x1 ||| 0x2 ||| 0x400 ||| 0x40 ||| 0x200

def fuse.FOPEN_KEEP_CACHE : Nat := 2

def fuse.S_IFMT : Nat := 0xf000
def fuse.S_IFDIR : Nat := 0x4000
def fuse.S_IFREG : Nat := 0x8000
def fuse.S_IFLNK : Nat := 0xa000

/-- An `os.FileInfo`, with the fields that take part in comparisons across
machines. -/
structure os.FileInfo where
  Mode : Nat := 0
  Size : Int := 0
  Mtime_ns : Int := 0
  deriving DecidableEq, Repr

/-- The method `FileInfo.IsSymlink()`. -/
def os.FileInfo.IsSymlink (f : os.FileInfo) : Bool :=
  f.Mode &&& fuse.S_IFMT == fuse.S_IFLNK

/-- The method `FileInfo.IsRegular()`. -/
def os.FileInfo.IsRegular (f : os.FileInfo) : Bool :=
  f.Mode &&& fuse.S_IFMT == fuse.S_IFREG

/-- A `fuse.DirEntry`. -/
structure fuse.DirEntry where
  Name : String
  Mode : Nat
  deriving DecidableEq, Repr

/-- The `fuse.File` that `Open` returns: a `fuse.WithFlags` around a loopback
file for the path opened. -/
structure fuse.File where
  path : String
  flags : Nat
  deriving DecidableEq, Repr

/-! ## rpcfs.go -/

/-- Modelled from the spec: the `FileAttr` struct (declared outside the sources
at hand). "`Path`: absolute path string, with leading `/`. `Status`: OK / NOENT
/ other errno-valued outcome. `FileInfo`: present iff Status is OK. `Hash`:
present iff the entry is a regular file with known content. `Link`: present
iff the entry is a symlink; the target string. `NameModeMap`: present iff the
entry is a directory. `Content`: optional inline bytes." `FileInfo` is a
pointer in the source (`*os.FileInfo`), `none` is `nil`. -/
structure FileAttr where
  Path : String
  Status : fuse.Status
  FileInfo : Option os.FileInfo := none
  Hash : String := ""
  Link : String := ""
  NameModeMap : GoMap Nat := []
  Content : Option String := none
  deriving DecidableEq, Repr

/-- Modelled from the spec: the `DirResponse` struct, "`NameModeMap` for one
directory, representing the authoritative listing at fetch time". -/
structure DirResponse where
  NameModeMap : GoMap Nat := []
  deriving DecidableEq, Repr

/-- The request of `FsServer.ReadDir`, as `GetDir` builds it. -/
structure DirRequest where
  Name : String
  deriving DecidableEq, Repr

/-- The request of `FsServer.GetAttr`, as `getFileAttr` builds it. -/
structure AttrRequest where
  Name : String
  deriving DecidableEq, Repr

/-- The reply of `FsServer.GetAttr`, as `getFileAttr` reads it. -/
structure AttrResponse where
  Attrs : List FileAttr := []
  deriving DecidableEq, Repr

/-- The request of `FsServer.FileContent`. -/
structure ContentRequest where
  Hash : String
  Start : Int
  End : Int
  deriving DecidableEq, Repr

/-- The reply of `FsServer.FileContent`. -/
structure ContentResponse where
  Chunk : String
  deriving DecidableEq, Repr

/-- The master behind `me.client`: what each `client.Call` returns, `none` when
the call returns an error. -/
structure FsServer where
  GetAttr : AttrRequest → Option AttrResponse
  ReadDir : DirRequest → Option DirResponse
  FileContent : ContentRequest → Option ContentResponse

/-- A call `me.client.Call(method, req, rep)` that was issued. -/
inductive RpcCall where
  | GetAttr (req : AttrRequest)
  | ReadDir (req : DirRequest)
  | FileContent (req : ContentRequest)
  deriving DecidableEq, Repr

/-- The functions of the repository that rpcfs.go calls and the sources at hand
do not define, and the worker's local file system. -/
structure Deps where
  /-- The method `FileAttr.Deletion()`. -/
  Deletion : FileAttr → Bool
  /-- The function `HasDirPrefix(path, prefix)`. -/
  HasDirPrefix : String → String → Bool
  /-- The function `EncodeFileInfo`. -/
  EncodeFileInfo : os.FileInfo → String
  /-- The digest of a byte string. -/
  digest : String → String
  /-- The result of `os.Lstat` on a local path, `none` when it fails. -/
  Lstat : String → Option os.FileInfo
  /-- The bytes of the local file at a path. -/
  readFile : String → String

/-- Modelled from the spec: the `ContentCache` (defined outside the sources at
hand), "a mapping from Hash → stored blob"; "`HasHash(h)` is true iff a readable
blob with digest `h` exists in the store". The state is the directory of the
store and the hashes of the stored blobs. -/
structure ContentCache where
  dir : String
  hashes : List String
  deriving DecidableEq, Repr

/-- Modelled from the spec: `HasHash(h) → bool`, the "presence test". -/
def ContentCache.HasHash (me : ContentCache) (hash : String) : Bool :=
  me.hashes.contains hash

/-- Modelled from the spec: `Path(h)`, "the local path at which a stored blob
can be read", "a filename derived from its hash". -/
def ContentCache.Path (me : ContentCache) (hash : String) : String :=
  me.dir ++ "/" ++ hash

/-- The store with a blob of the given hash added. -/
def ContentCache.store (me : ContentCache) (hash : String) : ContentCache :=
  if me.HasHash hash then me else { me with hashes := hash :: me.hashes }

/-- Modelled from the spec: `Save(bytes) → Hash`, "digest the bytes, if
`HasHash` is false write the blob". -/
def ContentCache.Save (deps : Deps) (me : ContentCache) (content : String) : ContentCache :=
  me.store (deps.digest content)

/-- Modelled from the spec: `SaveImmutablePath(p)`, "digest the bytes at path
`p` and, if `HasHash(digest)` is false, hard-link or copy `p` into the store". -/
def ContentCache.SaveImmutablePath (deps : Deps) (me : ContentCache) (path : String) :
    ContentCache :=
  me.store (deps.digest (deps.readFile path))

/-- The state of an `RpcFs`. The cache is shared by reference in the source; a
single-threaded run owns it. -/
structure RpcFs where
  cache : ContentCache
  localRoots : List String
  directories : GoMap DirResponse
  attrResponse : GoMap FileAttr
  fetchMap : GoMap Bool
  deriving DecidableEq, Repr

/-- How a call ends: it returns, it panics on a nil pointer dereference, or it
blocks in `fetchCond.Wait()`. -/
inductive Res (α : Type) where
  | ret (a : α)
  | panic
  | block
  deriving DecidableEq, Repr

/-- Sequencing of calls: continue with the returned value. -/
def Res.bind {α β : Type} (r : Res α) (f : α → Res β) : Res β :=
  match r with
  | .ret a => f a
  | .panic => .panic
  | .block => .block

/-- What a returning call leaves behind: the new state, the RPCs it issued in
order, and its Go results. -/
structure Ret (α : Type) where
  me : RpcFs
  rpcs : List RpcCall
  val : α
  deriving DecidableEq, Repr

/-- The state that the loops of `updateFiles` work on: `attrResponse` and
`flushDirs`. -/
def updateFiles.body (deps : Deps) (st : GoMap FileAttr × List String) (r : FileAttr) :
    GoMap FileAttr × List String :=
  let p := strings.TrimLeft r.Path "/"
  let d := (filepath.Split p).1
  let flush :=
    deps.Deletion r ||
      (match st.1.get p with
       | some a => a.Status != fuse.ENOENT
       | none => false)
  let flushDirs := if flush then st.2 ++ [d] else st.2
  (st.1.set p r, flushDirs)

/-- The method `RpcFs.updateFiles`. -/
def updateFiles (deps : Deps) (me : RpcFs) (files : List FileAttr) : RpcFs :=
  let st := files.foldl (updateFiles.body deps) (me.attrResponse, [])
  let directories := st.2.foldl (fun dirs d => dirs.delete d) me.directories
  { me with attrResponse := st.1, directories := directories }

/-- The method `RpcFs.Update`; it returns `nil`. -/
def Update (deps : Deps) (me : RpcFs) (req : List FileAttr) : RpcFs :=
  updateFiles deps me req

/-- The method `RpcFs.GetDir`; the value is `none` for a `nil` result. -/
def GetDir (srv : FsServer) (me : RpcFs) (name : String) : Ret (Option DirResponse) :=
  match me.directories.get name with
  | some r => ⟨me, [], some r⟩
  | none =>
    let req : DirRequest := { Name := "/" ++ name }
    match srv.ReadDir req with
    | none => ⟨me, [.ReadDir req], none⟩
    | some rep =>
      ⟨{ me with directories := me.directories.set name rep }, [.ReadDir req], some rep⟩

/-- The method `RpcFs.OpenDir`; the channel is the list of the entries sent on
it. -/
def OpenDir (srv : FsServer) (me : RpcFs) (name : String) :
    Ret (Option (List fuse.DirEntry) × fuse.Status) :=
  let r := GetDir srv me name
  match r.val with
  | none => ⟨r.me, r.rpcs, (none, fuse.ENOENT)⟩
  | some resp =>
    ⟨r.me, r.rpcs, (some (resp.NameModeMap.map (fun e => ⟨e.1, e.2⟩)), fuse.OK)⟩

/-- The method `RpcFs.considerSaveLocal`. -/
def considerSaveLocal (deps : Deps) (me : RpcFs) (attr : FileAttr) : Res RpcFs :=
  let absPath := attr.Path
  if !attr.Status.Ok then .ret me
  else
    match attr.FileInfo with
    | none => .panic
    | some info =>
      if !info.IsRegular then .ret me
      else
        let found := me.localRoots.foldl
          (fun found root => if deps.HasDirPrefix absPath root then true else found) false
        if !found then .ret me
        else
          match deps.Lstat absPath with
          | none => .ret me
          | some fi =>
            if deps.EncodeFileInfo fi != deps.EncodeFileInfo info then .ret me
            else .ret { me with cache := me.cache.SaveImmutablePath deps absPath }

/-- The loop of `getFileAttr` over `rep.Attrs`, on the state and `wanted`. -/
def getFileAttr.loop (deps : Deps) (abs : String) :
    List FileAttr → RpcFs → Option FileAttr → Res (RpcFs × Option FileAttr)
  | [], me, wanted => .ret (me, wanted)
  | attr :: rest, me, wanted =>
    let me :=
      match attr.Content with
      | some content => { me with cache := me.cache.Save deps content }
      | none => me
    (considerSaveLocal deps me attr).bind fun me =>
      let fa := attr
      let me := { me with attrResponse := me.attrResponse.set (strings.TrimLeft attr.Path "/") fa }
      let wanted := if attr.Path == abs then some fa else wanted
      getFileAttr.loop deps abs rest me wanted

/-- The method `RpcFs.getFileAttr`; the value is `none` for a `nil` result. -/
def getFileAttr (deps : Deps) (srv : FsServer) (me : RpcFs) (name : String) :
    Res (Ret (Option FileAttr)) :=
  match me.attrResponse.get name with
  | some result => .ret ⟨me, [], some result⟩
  | none =>
    match me.attrResponse.get name with
    | some result => .ret ⟨me, [], some result⟩
    | none =>
      let abs := "/" ++ name
      let req : AttrRequest := { Name := abs }
      match srv.GetAttr req with
      | none => .ret ⟨me, [.GetAttr req], none⟩
      | some rep =>
        (getFileAttr.loop deps abs rep.Attrs me none).bind fun st =>
          .ret ⟨st.1, [.GetAttr req], st.2⟩

/-- The method `RpcFs.GetAttr`. -/
def GetAttr (deps : Deps) (srv : FsServer) (me : RpcFs) (name : String) :
    Res (Ret (Option os.FileInfo × fuse.Status)) :=
  if name == "" then
    .ret ⟨me, [], (some { Mode := fuse.S_IFDIR ||| 0o755 }, fuse.OK)⟩
  else
    (getFileAttr deps srv me name).bind fun r =>
      match r.val with
      | none => .ret ⟨r.me, r.rpcs, (none, fuse.ENOENT)⟩
      | some a => .ret ⟨r.me, r.rpcs, (a.FileInfo, a.Status)⟩

/-- The method `RpcFs.Readlink`. -/
def Readlink (deps : Deps) (srv : FsServer) (me : RpcFs) (name : String) :
    Res (Ret (String × fuse.Status)) :=
  (getFileAttr deps srv me name).bind fun r =>
    match r.val with
    | none => .ret ⟨r.me, r.rpcs, ("", fuse.ENOENT)⟩
    | some a =>
      if !a.Status.Ok then .ret ⟨r.me, r.rpcs, ("", a.Status)⟩
      else
        match a.FileInfo with
        | none => .panic
        | some info =>
          if !info.IsSymlink then .ret ⟨r.me, r.rpcs, ("", fuse.EINVAL)⟩
          else .ret ⟨r.me, r.rpcs, (a.Link, fuse.OK)⟩

/-- Modelled from the spec: `FetchBetweenContentServers` (defined outside the
sources at hand) "issues successive chunk requests until `size` bytes have been
received and appended to a streaming save into `cache`; returns error on any
RPC failure or if the received bytes' digest does not match `hash`"; here the
whole blob is one chunk. The result is the cache, the calls, and the error. -/
def FetchBetweenContentServers (deps : Deps) (srv : FsServer) (size : Int) (hash : String)
    (cache : ContentCache) : ContentCache × List RpcCall × Option String :=
  let req : ContentRequest := { Hash := hash, Start := 0, End := size }
  match srv.FileContent req with
  | none => (cache, [.FileContent req], some "rpc error")
  | some rep =>
    if deps.digest rep.Chunk = hash then (cache.store hash, [.FileContent req], none)
    else (cache, [.FileContent req], some "hash mismatch")

/-- The method `RpcFs.fetchOnce`. -/
def fetchOnce (deps : Deps) (srv : FsServer) (me : RpcFs) (size : Int) (hash : String) :
    RpcFs × List RpcCall × Option String :=
  let r := FetchBetweenContentServers deps srv size hash me.cache
  ({ me with cache := r.1 }, r.2.1, r.2.2)

/-- The method `RpcFs.FetchHash`, run by a single goroutine: with the
in-progress flag of the hash set and the blob absent it waits for a signal. -/
def FetchHash (deps : Deps) (srv : FsServer) (me : RpcFs) (size : Int) (hash : String) :
    Res (Ret (Option String)) :=
  let key := hash
  if (me.fetchMap.get key).getD false && !me.cache.HasHash hash then .block
  else if me.cache.HasHash hash then .ret ⟨me, [], none⟩
  else
    let me := { me with fetchMap := me.fetchMap.set key true }
    let r := fetchOnce deps srv me size hash
    let me := r.1
    let me := { me with fetchMap := me.fetchMap.delete key }
    .ret ⟨me, r.2.1, r.2.2⟩

/-- The end of `Open`: `os.Open(p)` on the cache path of a hash, which by the
cache invariant succeeds iff the blob is stored. -/
def Open.file (me : RpcFs) (rpcs : List RpcCall) (hash : String) :
    Ret (Option fuse.File × fuse.Status) :=
  if me.cache.HasHash hash then
    ⟨me, rpcs, (some ⟨me.cache.Path hash, fuse.FOPEN_KEEP_CACHE⟩, fuse.OK)⟩
  else ⟨me, rpcs, (none, fuse.ENOENT)⟩

/-- The method `RpcFs.Open`. `os.Lstat` of the cache path fails with `ENOENT`
iff the blob is not stored. -/
def Open (deps : Deps) (srv : FsServer) (me : RpcFs) (name : String) (flags : Nat) :
    Res (Ret (Option fuse.File × fuse.Status)) :=
  if flags &&& fuse.O_ANYWRITE != 0 then .ret ⟨me, [], (none, fuse.EPERM)⟩
  else
    (getFileAttr deps srv me name).bind fun r =>
      match r.val with
      | none => .ret ⟨r.me, r.rpcs, (none, fuse.ENOENT)⟩
      | some a =>
        if !a.Status.Ok then .ret ⟨r.me, r.rpcs, (none, a.Status)⟩
        else if !r.me.cache.HasHash a.Hash then
          match a.FileInfo with
          | none => .panic
          | some info =>
            (FetchHash deps srv r.me info.Size a.Hash).bind fun f =>
              match f.val with
              | some _ => .ret ⟨f.me, r.rpcs ++ f.rpcs, (none, fuse.ENOENT)⟩
              | none => .ret (Open.file f.me (r.rpcs ++ f.rpcs) a.Hash)
        else .ret (Open.file r.me r.rpcs a.Hash)

/-! ## bin/tool/main.go -/

/-- The call `os.Stat(name)` returns no error: the file system is the set
`fs` of the paths that exist, and the empty name names no file. -/
def os.Stat (fs : String → Bool) (name : String) : Bool :=
  name != "" && fs name

/-- The body of the loop of `main` over `filepath.SplitList(path)`. -/
def main.body (fs : String → Bool) (base : String) (binary : String) (c : String) : String :=
  let dirBase := (filepath.Split c).2
  if dirBase == "termite" then binary
  else
    let try_ := filepath.Join c base
    if os.Stat fs try_ then try_ else binary

/-- The value of `binary` after the loop of `main`, for the environment value
`PATH` and `os.Args[0]`. -/
def main.binary (fs : String → Bool) (path : String) (args0 : String) : String :=
  let base := (filepath.Split args0).2
  (filepath.SplitList path).foldl (main.body fs base) ""

/-- The fields of `WorkRequest` that `main` sets. -/
structure WorkRequest where
  Binary : String
  Argv : List String
  Env : List String
  Dir : String
  deriving DecidableEq, Repr

/-- The function `main` up to the construction of the request, which comes
before the socket lookup and `net.Dial`: `log.Fatal` (an error) or the request
it goes on with. `os.Args` is `args0 :: args`, and `wd` is the result of
`os.Getwd()`, `none` when it fails. -/
def main (fs : String → Bool) (path : String) (args0 : String) (args : List String)
    (environ : List String) (wd : Option String) : Except String WorkRequest :=
  let binary := main.binary fs path args0
  if binary == "" then .error "could not find"
  else
    match wd with
    | none => .error "Getwd"
    | some wd => .ok { Binary := binary, Argv := binary :: args, Env := environ, Dir := wd }

/-! ## rpcfs.go: `FetchHash` run by several goroutines -/

/-- Where a goroutine stands with respect to `FetchHash(size, hash)`. -/
inductive Pc where
  /-- Outside `FetchHash`. -/
  | idle
  /-- At `me.fetchMutex.Lock()` on entry. -/
  | lock (hash : String)
  /-- Holding the mutex, at the loop condition
  `me.fetchMap[key] && !me.cache.HasHash(hash)`. -/
  | loop (hash : String)
  /-- Inside `me.fetchCond.Wait()`: the mutex is released, no signal yet. -/
  | wait (hash : String)
  /-- Inside `me.fetchCond.Wait()`: signalled, re-acquiring the mutex. -/
  | wake (hash : String)
  /-- Holding the mutex, at `if me.cache.HasHash(hash)`. -/
  | check (hash : String)
  /-- Holding the mutex, at `me.fetchMap[key] = true`. -/
  | mark (hash : String)
  /-- Holding the mutex with the flag set, at `me.fetchMutex.Unlock()`. -/
  | started (hash : String)
  /-- Inside `me.fetchOnce(size, hash)`, without the mutex. -/
  | fetch (hash : String)
  /-- After `fetchOnce` returned `err`, at `me.fetchMutex.Lock()`. -/
  | relock (hash : String) (err : Bool)
  /-- Holding the mutex, at the deferred function that deletes the flag and
  signals. -/
  | deferred (hash : String) (err : Bool)
  /-- Holding the mutex, at the deferred `me.fetchMutex.Unlock()`; `err` is the
  error being returned. -/
  | unlock (hash : String) (err : Bool)
  deriving DecidableEq, Repr

/-- The goroutine holds `fetchMutex`. -/
def Pc.holdsMutex : Pc → Bool
  | .loop _ | .check _ | .mark _ | .started _ | .deferred _ _ | .unlock _ _ => true
  | _ => false

/-- The goroutine is between setting the in-progress flag of `hash` and
deleting it. -/
def Pc.inFlight (hash : String) : Pc → Bool
  | .started h | .fetch h | .relock h _ | .deferred h _ => h == hash
  | _ => false

/-- The state shared by the goroutines that call `FetchHash` on one `RpcFs`:
their positions, the holder of `fetchMutex`, `fetchMap` and the cache. The
goroutines inside `fetchCond.Wait()` are those at `wait`. -/
structure FetchState where
  pc : Nat → Pc
  mutex : Option Nat
  fetchMap : GoMap Bool
  cache : ContentCache

/-- The value of `me.fetchMap[key]`, false for a missing key. -/
def FetchState.flag (s : FetchState) (key : String) : Bool :=
  (s.fetchMap.get key).getD false

/-- What can happen next. -/
inductive Event where
  /-- Goroutine `t` calls `FetchHash(size, hash)`. -/
  | call (t : Nat) (hash : String)
  /-- Goroutine `t` executes the statement it stands at. -/
  | run (t : Nat)
  /-- The `fetchOnce` of goroutine `t` returns, with success or an error. -/
  | fetched (t : Nat) (ok : Bool)
  /-- Goroutine `t` runs the deferred function; its `Signal()` wakes the
  waiting goroutine `woken`, or nobody. -/
  | deferred (t : Nat) (woken : Option Nat)
  /-- Some user of the shared cache stores a blob; blobs are never removed
  ("a blob, once `HasHash==true`, remains retrievable"). -/
  | store (hash : String)

/-- The effect of `fetchCond.Signal()`: at most one goroutine inside `Wait()`
is woken. `none` when the chosen goroutine is not waiting. -/
def signal (pc : Nat → Pc) : Option Nat → Option (Nat → Pc)
  | none => some pc
  | some u =>
    match pc u with
    | .wait h => some (Function.update pc u (.wake h))
    | _ => none

/-- One step of the goroutines of `FetchHash`; `none` when the event cannot
happen in the state (a `Lock()` on a held mutex, a goroutine that is blocked
or elsewhere). -/
def step (s : FetchState) : Event → Option FetchState
  | .call t hash =>
    match s.pc t with
    | .idle => some { s with pc := Function.update s.pc t (.lock hash) }
    | _ => none
  | .run t =>
    match s.pc t with
    | .lock h =>
      if s.mutex = none then
        some { s with mutex := some t, pc := Function.update s.pc t (.loop h) }
      else none
    | .loop h =>
      if s.flag h && !s.cache.HasHash h then
        some { s with mutex := none, pc := Function.update s.pc t (.wait h) }
      else some { s with pc := Function.update s.pc t (.check h) }
    | .wake h =>
      if s.mutex = none then
        some { s with mutex := some t, pc := Function.update s.pc t (.loop h) }
      else none
    | .check h =>
      if s.cache.HasHash h then
        some { s with pc := Function.update s.pc t (.unlock h false) }
      else some { s with pc := Function.update s.pc t (.mark h) }
    | .mark h =>
      some { s with fetchMap := s.fetchMap.set h true,
                    pc := Function.update s.pc t (.started h) }
    | .started h =>
      some { s with mutex := none, pc := Function.update s.pc t (.fetch h) }
    | .relock h err =>
      if s.mutex = none then
        some { s with mutex := some t, pc := Function.update s.pc t (.deferred h err) }
      else none
    | .unlock _ _ =>
      some { s with mutex := none, pc := Function.update s.pc t .idle }
    | _ => none
  | .fetched t ok =>
    match s.pc t with
    | .fetch h =>
      some { s with cache := if ok then s.cache.store h else s.cache,
                    pc := Function.update s.pc t (.relock h (!ok)) }
    | _ => none
  | .deferred t woken =>
    match s.pc t with
    | .deferred h err =>
      match signal (Function.update s.pc t (.unlock h err)) woken with
      | some pc => some { s with fetchMap := s.fetchMap.delete h, pc := pc }
      | none => none
    | _ => none
  | .store hash => some { s with cache := s.cache.store hash }

/-- The state of a new `RpcFs` (`NewRpcFs`): no goroutine is inside
`FetchHash`, the mutex is free, `fetchMap` is empty. -/
def FetchState.init (cache : ContentCache) : FetchState :=
  { pc := fun _ => .idle, mutex := none, fetchMap := [], cache := cache }

/-- The state after a schedule: the events happen in order, an event that
cannot happen in the state it meets is skipped. -/
def runSchedule (cache : ContentCache) (schedule : List Event) : FetchState :=
  schedule.foldl (fun s ev => (step s ev).getD s) (FetchState.init cache)

/-! ## Definitions used in the statements -/

/-- The admission invariant: the reservations fit the daemon's job count and
every mirror of the map holds a positive reservation. -/
def BudgetOk (me : WorkerDaemon) : Prop :=
  reservedJobs me.mirrorMap ≤ me.maxJobCount ∧ ∀ e ∈ me.mirrorMap, 0 < e.2.maxJobCount

/-- The mirror that `getMirror` builds when it grants a reservation. -/
def grantedMirror (me : WorkerDaemon) (rpcConn revConn : Conn) (reserveCount : Int) : Mirror :=
  { rpcConn := rpcConn, revConn := revConn,
    maxJobCount := min (me.maxJobCount - reservedJobs me.mirrorMap) reserveCount,
    key := rpcConn.remoteAddr, writableRoot := "" }

/-- Connections by id, for the examples: the remote address is the id. -/
def connOfId (id : String) : Conn := ⟨id⟩

/-- A sequence of calls that grants, caps, refuses, re-uses a key and drops. -/
def sampleOps : List DaemonOp :=
  [ .create ⟨"a:1", "a:2", "/src", 3⟩,
    .create ⟨"b:1", "b:2", "/src", 4⟩,
    .get ⟨"c:1"⟩ ⟨"c:2"⟩ 2,
    .drop { NewMirror ⟨"b:1"⟩ ⟨"b:2"⟩ with key := "b:1" },
    .create ⟨"a:1", "a:3", "/src", 1⟩,
    .create ⟨"b:1", "b:2", "/src", 0⟩ ]

/-- The data-model condition on a `FileAttr`: with Status OK the `FileInfo` is
present. -/
def FileAttr.HasInfo (attr : FileAttr) : Prop :=
  attr.Status = fuse.OK → attr.FileInfo ≠ none

/-- Dependencies for the examples: an entry is a deletion iff its status is
`ENOENT`, no local roots match, and the digest is the identity. -/
def sampleDeps : Deps :=
  { Deletion := fun a => a.Status == fuse.ENOENT,
    HasDirPrefix := fun _ _ => false,
    EncodeFileInfo := fun _ => "",
    digest := fun s => s,
    Lstat := fun _ => none,
    readFile := fun _ => "" }

/-- A master whose every call fails. -/
def srvDown : FsServer :=
  { GetAttr := fun _ => none, ReadDir := fun _ => none, FileContent := fun _ => none }

/-- The entry of a symlink `/l` to `target`. -/
def linkAttr : FileAttr :=
  { Path := "/l", Status := fuse.OK, FileInfo := some { Mode := fuse.S_IFLNK ||| 0o777 },
    Link := "target" }

/-- A master that knows one symlink, one regular file and one missing path. -/
def srvSample : FsServer :=
  { GetAttr := fun req =>
      if req.Name = "/l" then some ⟨[linkAttr]⟩
      else if req.Name = "/r" then
        some ⟨[{ Path := "/r", Status := fuse.OK,
                 FileInfo := some { Mode := fuse.S_IFREG ||| 0o644 }, Hash := "h" }]⟩
      else if req.Name = "/gone" then
        some ⟨[{ Path := "/gone", Status := fuse.ENOENT }]⟩
      else if req.Name = "/other" then
        some ⟨[{ Path := "/r", Status := fuse.OK,
                 FileInfo := some { Mode := fuse.S_IFREG ||| 0o644 }, Hash := "h" }]⟩
      else none,
    ReadDir := fun _ => none,
    FileContent := fun _ => none }

/-- An `RpcFs` as `NewRpcFs` makes it: empty maps, an empty cache. -/
def emptyFs : RpcFs :=
  { cache := ⟨"/cache", []⟩, localRoots := [], directories := [], attrResponse := [],
    fetchMap := [] }

/-- A path without a leading separator, as the file system layer passes it. -/
abbrev NoLeadingSlash (p : String) : Prop :=
  p.data.head? ≠ some '/'

/-- The attributes `GetAttr` answers for the root. -/
def rootInfo : os.FileInfo :=
  { Mode := fuse.S_IFDIR ||| 0o755 }

/-- The pushed entry "`/` does not exist", whose path is `"/" + ""`. -/
def rootGoneAttr : FileAttr :=
  { Path := "/", Status := fuse.ENOENT }

/-- A pushed entry whose path is `"/" + "/x"`. -/
def slashAttr : FileAttr :=
  { Path := "//x", Status := fuse.OK, FileInfo := some { Mode := fuse.S_IFREG ||| 0o644 } }

/-- An `RpcFs` that has cached the listing `{f: 0644}` of directory `a`. -/
def fsListingA : RpcFs :=
  { emptyFs with directories := [("a", ⟨[("f", 0o644)]⟩)] }

/-- The pushed entry "`/a/f` does not exist". -/
def goneAttr : FileAttr :=
  { Path := "/a/f", Status := fuse.ENOENT }

/-- A regular file `/f` as first seen, and as seen after its content changed. -/
def fileAttrV1 : FileAttr :=
  { Path := "/f", Status := fuse.OK,
    FileInfo := some { Mode := fuse.S_IFREG ||| 0o644, Size := 1, Mtime_ns := 1 }, Hash := "h1" }

def fileAttrV2 : FileAttr :=
  { Path := "/f", Status := fuse.OK,
    FileInfo := some { Mode := fuse.S_IFREG ||| 0o644, Size := 2, Mtime_ns := 2 }, Hash := "h2" }

/-- An `RpcFs` that has cached the listing of the root and of `b`, and the
entry of `/f`. -/
def fsRootListing : RpcFs :=
  { emptyFs with
    directories := [("", ⟨[("f", 0o644)]⟩), ("b", ⟨[]⟩)],
    attrResponse := [("f", fileAttrV1)] }

/-- A `PATH` entry that the shim may resolve `base` in: its last path element
is not `termite`, and `base` joined to it exists. -/
def usableDir (fs : String → Bool) (base : String) (d : String) : Bool :=
  (filepath.Split d).2 != "termite" && os.Stat fs (filepath.Join d base)

/-- A file system with `gcc` both in the termite directory and in `/usr/bin`. -/
def fsTwoGcc (p : String) : Bool :=
  p == "/x/termite/gcc" || p == "/usr/bin/gcc"

/-- A file system with `gcc` in the termite directory only. -/
def fsShimOnly (p : String) : Bool :=
  p == "/x/termite/gcc"

/-- The invariant of the goroutines of `FetchHash`: a goroutine at a statement
under the mutex is the holder of the mutex; a goroutine between setting and
deleting the flag of a hash finds the flag set and is the only such goroutine
for the hash; a goroutine about to set the flag finds it unset; and a
goroutine that left the loop saw the flag unset or the blob stored. -/
structure FetchInv (s : FetchState) : Prop where
  holder : ∀ t, (s.pc t).holdsMutex = true → s.mutex = some t
  flagged : ∀ t h, (s.pc t).inFlight h = true → s.flag h = true
  unique : ∀ t u h, (s.pc t).inFlight h = true → (s.pc u).inFlight h = true → t = u
  marking : ∀ t h, s.pc t = .mark h → s.flag h = false
  checking : ∀ t h, s.pc t = .check h → s.flag h = false ∨ s.cache.HasHash h = true

/-- A schedule in which goroutines 0 and 1 ask for the same hash: goroutine 0
gets to `fetchOnce`, goroutine 1 finds the flag set and waits. -/
def sampleSchedule : List Event :=
  [ .call 0 "h", .call 1 "h", .run 0, .run 0, .run 0, .run 0, .run 0,
    .run 1, .run 1, .run 1 ]

/-- A regular file `/a/f` as first seen, and as seen after its content changed. -/
def nestedAttrV1 : FileAttr :=
  { Path := "/a/f", Status := fuse.OK,
    FileInfo := some { Mode := fuse.S_IFREG ||| 0o644, Size := 1, Mtime_ns := 1 }, Hash := "h1" }

def nestedAttrV2 : FileAttr :=
  { Path := "/a/f", Status := fuse.OK,
    FileInfo := some { Mode := fuse.S_IFREG ||| 0o644, Size := 2, Mtime_ns := 2 }, Hash := "h2" }

/-- An `RpcFs` that has cached the listing of `a` and the entry of `/a/f`. -/
def fsNestedListing : RpcFs :=
  { emptyFs with
    directories := [("a", ⟨[("f", 0o644)]⟩)],
    attrResponse := [("a/f", nestedAttrV1)] }

/-! ## Theorems: the worker daemon -/

theorem usedJobs_acc (m : GoMap Mirror) (acc : Int) :
    m.foldl (fun used e => used + e.2.maxJobCount) acc = acc + reservedJobs m := by
  induction m generalizing acc with
  | nil => simp [reservedJobs]
  | cons e m ih =>
    simp only [List.foldl_cons, ih]
    simp [reservedJobs]
    ring

theorem usedJobs_eq_reservedJobs (m : GoMap Mirror) : usedJobs m = reservedJobs m := by
  simp [usedJobs, usedJobs_acc]

theorem reservedJobs_cons (e : String × Mirror) (m : GoMap Mirror) :
    reservedJobs (e :: m) = e.2.maxJobCount + reservedJobs m := by
  simp [reservedJobs]

theorem reservedJobs_filter_le (p : String × Mirror → Bool) (m : GoMap Mirror)
    (hpos : ∀ e ∈ m, 0 < e.2.maxJobCount) :
    reservedJobs (m.filter p) ≤ reservedJobs m := by
  induction m with
  | nil => simp
  | cons e m ih =>
    have hm : ∀ e ∈ m, 0 < e.2.maxJobCount := fun x hx => hpos x (List.mem_cons_of_mem _ hx)
    have he : 0 < e.2.maxJobCount := hpos e (List.mem_cons_self _ _)
    have := ih hm
    by_cases hp : p e = true
    · simp only [List.filter_cons_of_pos hp, reservedJobs_cons]; omega
    · simp only [List.filter_cons_of_neg hp, reservedJobs_cons]; omega

theorem GoMap.set_set {V : Type} (m : GoMap V) (k : String) (v w : V) :
    (m.set k v).set k w = m.set k w := by
  simp [GoMap.set, List.filter_cons, List.filter_filter]

theorem BudgetOk_set (me : WorkerDaemon) (k : String) (v : Mirror) (h : BudgetOk me)
    (hpos : 0 < v.maxJobCount)
    (hfit : v.maxJobCount ≤ me.maxJobCount - reservedJobs me.mirrorMap) :
    BudgetOk { me with mirrorMap := me.mirrorMap.set k v } := by
  obtain ⟨hsum, hall⟩ := h
  constructor
  · have := reservedJobs_filter_le (fun e => e.1 != k) me.mirrorMap hall
    simp only [GoMap.set, reservedJobs_cons]
    omega
  · intro e he
    simp only [GoMap.set, List.mem_cons, List.mem_filter] at he
    rcases he with rfl | ⟨he, _⟩
    · exact hpos
    · exact hall e he

theorem BudgetOk_delete (me : WorkerDaemon) (k : String) (h : BudgetOk me) :
    BudgetOk { me with mirrorMap := me.mirrorMap.delete k } := by
  obtain ⟨hsum, hall⟩ := h
  constructor
  · have := reservedJobs_filter_le (fun e => e.1 != k) me.mirrorMap hall
    simp only [GoMap.delete]
    omega
  · intro e he
    simp only [GoMap.delete, List.mem_filter] at he
    exact hall e he.1

theorem getMirror_nonpositive (me : WorkerDaemon) (rpcConn revConn : Conn) (n : Int)
    (hn : n ≤ 0) :
    getMirror me rpcConn revConn n = (me, .error "must ask positive jobcount") := by
  simp [getMirror, hn]

theorem getMirror_full (me : WorkerDaemon) (rpcConn revConn : Conn) (n : Int)
    (hn : 0 < n) (hrem : me.maxJobCount - reservedJobs me.mirrorMap ≤ 0) :
    getMirror me rpcConn revConn n = (me, .error "no processes available") := by
  have hn' : ¬ n ≤ 0 := by omega
  simp [getMirror, hn', usedJobs_eq_reservedJobs, hrem]

theorem getMirror_grant (me : WorkerDaemon) (rpcConn revConn : Conn) (n : Int)
    (hn : 0 < n) (hrem : 0 < me.maxJobCount - reservedJobs me.mirrorMap) :
    getMirror me rpcConn revConn n =
      ({ me with mirrorMap :=
          me.mirrorMap.set rpcConn.remoteAddr (grantedMirror me rpcConn revConn n) },
        .ok (grantedMirror me rpcConn revConn n)) := by
  have hn' : ¬ n ≤ 0 := by omega
  have hrem' : ¬ me.maxJobCount - reservedJobs me.mirrorMap ≤ 0 := by omega
  have hmin : (if me.maxJobCount - reservedJobs me.mirrorMap < n
      then me.maxJobCount - reservedJobs me.mirrorMap else n)
      = min (me.maxJobCount - reservedJobs me.mirrorMap) n := by
    split <;> omega
  simp only [getMirror, hn', usedJobs_eq_reservedJobs, hrem', if_false, hmin, NewMirror,
    grantedMirror]

theorem getMirror_cases (me : WorkerDaemon) (rpcConn revConn : Conn) (n : Int) :
    (getMirror me rpcConn revConn n).1 = me ∨
      (0 < n ∧ 0 < me.maxJobCount - reservedJobs me.mirrorMap ∧
        getMirror me rpcConn revConn n =
          ({ me with mirrorMap :=
              me.mirrorMap.set rpcConn.remoteAddr (grantedMirror me rpcConn revConn n) },
            .ok (grantedMirror me rpcConn revConn n))) := by
  by_cases hn : n ≤ 0
  · left; rw [getMirror_nonpositive me rpcConn revConn n hn]
  · by_cases hrem : me.maxJobCount - reservedJobs me.mirrorMap ≤ 0
    · left; rw [getMirror_full me rpcConn revConn n (by omega) hrem]
    · right
      exact ⟨by omega, by omega, getMirror_grant me rpcConn revConn n (by omega) (by omega)⟩

theorem grantedMirror_pos (me : WorkerDaemon) (rpcConn revConn : Conn) (n : Int)
    (hn : 0 < n) (hrem : 0 < me.maxJobCount - reservedJobs me.mirrorMap) :
    0 < (grantedMirror me rpcConn revConn n).maxJobCount := by
  simp only [grantedMirror]; omega

theorem BudgetOk_getMirror (me : WorkerDaemon) (rpcConn revConn : Conn) (n : Int)
    (h : BudgetOk me) : BudgetOk (getMirror me rpcConn revConn n).1 := by
  rcases getMirror_cases me rpcConn revConn n with hsame | ⟨hn, hrem, heq⟩
  · rw [hsame]; exact h
  · rw [heq]
    exact BudgetOk_set me _ _ h (grantedMirror_pos me rpcConn revConn n hn hrem)
      (by simp only [grantedMirror]; omega)

theorem CreateMirror_grant (W : String → Conn) (me : WorkerDaemon) (req : CreateMirrorRequest)
    (rep : CreateMirrorResponse)
    (hn : 0 < req.MaxJobCount) (hrem : 0 < me.maxJobCount - reservedJobs me.mirrorMap) :
    CreateMirror W me req rep =
      ({ me with mirrorMap := (me.mirrorMap.set (W req.RpcId).remoteAddr
            { rpcConn := W req.RpcId, revConn := W req.RevRpcId,
              maxJobCount := min (me.maxJobCount - reservedJobs me.mirrorMap) req.MaxJobCount,
              key := (W req.RpcId).remoteAddr, writableRoot := req.WritableRoot }) },
        { rep with
          GrantedJobCount := (min (me.maxJobCount - reservedJobs me.mirrorMap) req.MaxJobCount) },
        none) := by
  simp only [CreateMirror, getMirror_grant me _ _ _ hn hrem]
  simp [grantedMirror, GoMap.set_set]

theorem CreateMirror_reject (W : String → Conn) (me : WorkerDaemon) (req : CreateMirrorRequest)
    (rep : CreateMirrorResponse)
    (h : req.MaxJobCount ≤ 0 ∨ me.maxJobCount - reservedJobs me.mirrorMap ≤ 0) :
    (CreateMirror W me req rep).1 = me ∧ (CreateMirror W me req rep).2.1 = rep ∧
      (CreateMirror W me req rep).2.2 ≠ none := by
  by_cases hn : req.MaxJobCount ≤ 0
  · simp [CreateMirror, getMirror_nonpositive me _ _ _ hn]
  · have hrem : me.maxJobCount - reservedJobs me.mirrorMap ≤ 0 := by
      rcases h with h | h
      · exact absurd h hn
      · exact h
    have hpos : 0 < req.MaxJobCount := by omega
    simp [CreateMirror, getMirror_full me (W req.RpcId) (W req.RevRpcId) req.MaxJobCount hpos hrem]

theorem BudgetOk_CreateMirror (W : String → Conn) (me : WorkerDaemon)
    (req : CreateMirrorRequest) (rep : CreateMirrorResponse) (h : BudgetOk me) :
    BudgetOk (CreateMirror W me req rep).1 := by
  by_cases hgrant : 0 < req.MaxJobCount ∧ 0 < me.maxJobCount - reservedJobs me.mirrorMap
  · rw [CreateMirror_grant W me req rep hgrant.1 hgrant.2]
    refine BudgetOk_set me _ _ h ?_ ?_
    · show 0 < min (me.maxJobCount - reservedJobs me.mirrorMap) req.MaxJobCount
      omega
    · show min (me.maxJobCount - reservedJobs me.mirrorMap) req.MaxJobCount ≤ _
      omega
  · rw [(CreateMirror_reject W me req rep (by omega)).1]; exact h

theorem BudgetOk_apply (W : String → Conn) (me : WorkerDaemon) (op : DaemonOp)
    (h : BudgetOk me) : BudgetOk (op.apply W me) := by
  cases op with
  | get rpcConn revConn n => exact BudgetOk_getMirror me rpcConn revConn n h
  | create req => exact BudgetOk_CreateMirror W me req _ h
  | drop mirror => exact BudgetOk_delete me mirror.key h

theorem maxJobCount_getMirror (me : WorkerDaemon) (rpcConn revConn : Conn) (n : Int) :
    (getMirror me rpcConn revConn n).1.maxJobCount = me.maxJobCount := by
  rcases getMirror_cases me rpcConn revConn n with hsame | ⟨_, _, heq⟩
  · rw [hsame]
  · rw [heq]

theorem maxJobCount_apply (W : String → Conn) (me : WorkerDaemon) (op : DaemonOp) :
    (op.apply W me).maxJobCount = me.maxJobCount := by
  cases op with
  | get rpcConn revConn n => exact maxJobCount_getMirror me rpcConn revConn n
  | create req =>
    by_cases hgrant : 0 < req.MaxJobCount ∧ 0 < me.maxJobCount - reservedJobs me.mirrorMap
    · simp only [DaemonOp.apply, CreateMirror_grant W me req _ hgrant.1 hgrant.2]
    · simp only [DaemonOp.apply, (CreateMirror_reject W me req _ (by omega)).1]
  | drop mirror => rfl

theorem runOps_invariant (W : String → Conn) (ops : List DaemonOp) (me : WorkerDaemon)
    (h : BudgetOk me) :
    BudgetOk (runOps W me ops) ∧ (runOps W me ops).maxJobCount = me.maxJobCount := by
  induction ops generalizing me with
  | nil => exact ⟨h, rfl⟩
  | cons op ops ih =>
    have := ih (op.apply W me) (BudgetOk_apply W me op h)
    simp only [runOps, List.foldl_cons] at this ⊢
    exact ⟨this.1, this.2.trans (maxJobCount_apply W me op)⟩

/-- C1: for a daemon created with `jobs ≥ 0` job slots and an empty mirror map,
after every sequence of `getMirror`, `CreateMirror` and `DropMirror` calls (any
requested counts, any connections, also one whose key is already in the map,
any mirror dropped) the sum of `maxJobCount` over the mirrors of `mirrorMap` is
at most the daemon's `maxJobCount`, which is still `jobs`, and every mirror of
the map has a positive `maxJobCount`. The sequence is arbitrary, so the
statement holds after each of its calls. -/
theorem mirror_reservations_within_budget (WaitConnection : String → Conn) (jobs : Int)
    (hjobs : 0 ≤ jobs) (ops : List DaemonOp) :
    reservedJobs (runOps WaitConnection (NewWorkerDaemon jobs) ops).mirrorMap
        ≤ (runOps WaitConnection (NewWorkerDaemon jobs) ops).maxJobCount ∧
      (runOps WaitConnection (NewWorkerDaemon jobs) ops).maxJobCount = jobs ∧
      ∀ e ∈ (runOps WaitConnection (NewWorkerDaemon jobs) ops).mirrorMap,
        0 < e.2.maxJobCount := by
  have h0 : BudgetOk (NewWorkerDaemon jobs) := by
    constructor
    · simpa [NewWorkerDaemon, reservedJobs] using hjobs
    · intro e he
      simp [NewWorkerDaemon] at he
  obtain ⟨⟨hsum, hpos⟩, hmax⟩ := runOps_invariant WaitConnection ops _ h0
  exact ⟨hsum, hmax, hpos⟩

theorem mirror_reservations_within_budget_witness :
    (0 : Int) ≤ 4 ∧
      reservedJobs (runOps connOfId (NewWorkerDaemon 4) sampleOps).mirrorMap = 1 ∧
      reservedJobs (runOps connOfId (NewWorkerDaemon 4) sampleOps).mirrorMap
        ≤ (runOps connOfId (NewWorkerDaemon 4) sampleOps).maxJobCount :=
  ⟨by decide, by decide,
    (mirror_reservations_within_budget connOfId 4 (by decide) sampleOps).1⟩

theorem getFileAttr_cached (deps : Deps) (srv : FsServer) (me : RpcFs) (name : String)
    (a : FileAttr) (h : me.attrResponse.get name = some a) :
    getFileAttr deps srv me name = .ret ⟨me, [], some a⟩ := by
  simp [getFileAttr, h]

theorem getFileAttr_rpc_failure (deps : Deps) (srv : FsServer) (me : RpcFs) (name : String)
    (hmiss : me.attrResponse.get name = none) (hfail : srv.GetAttr ⟨"/" ++ name⟩ = none) :
    getFileAttr deps srv me name = .ret ⟨me, [.GetAttr ⟨"/" ++ name⟩], none⟩ := by
  simp [getFileAttr, hmiss, hfail]

theorem considerSaveLocal_returns (deps : Deps) (me : RpcFs) (attr : FileAttr)
    (h : attr.HasInfo) : ∃ me', considerSaveLocal deps me attr = .ret me' := by
  unfold considerSaveLocal
  by_cases hok : attr.Status.Ok = true
  · have hst : attr.Status = fuse.OK := by simpa [fuse.Status.Ok] using hok
    have hinfo := h hst
    cases hfi : attr.FileInfo with
    | none => exact absurd hfi hinfo
    | some info =>
      simp only [hok, Bool.not_true, Bool.false_eq_true, if_false]
      split
      · exact ⟨_, rfl⟩
      · split
        · exact ⟨_, rfl⟩
        · split
          · exact ⟨_, rfl⟩
          · split
            · exact ⟨_, rfl⟩
            · exact ⟨_, rfl⟩
  · simp [hok]

theorem getFileAttr_loop_returns (deps : Deps) (abs : String) (attrs : List FileAttr)
    (hwf : ∀ attr ∈ attrs, attr.HasInfo) (me : RpcFs) (wanted : Option FileAttr) :
    ∃ st, getFileAttr.loop deps abs attrs me wanted = .ret st ∧
      ((∀ attr ∈ attrs, attr.Path ≠ abs) → st.2 = wanted) := by
  induction attrs generalizing me wanted with
  | nil => exact ⟨_, rfl, fun _ => rfl⟩
  | cons attr rest ih =>
    have hrest : ∀ a ∈ rest, a.HasInfo := fun a ha => hwf a (List.mem_cons_of_mem _ ha)
    obtain ⟨me', hme'⟩ := considerSaveLocal_returns deps
      (match attr.Content with
        | some content => { me with cache := me.cache.Save deps content }
        | none => me) attr (hwf attr (List.mem_cons_self _ _))
    obtain ⟨st, hst, hwanted⟩ := ih hrest
      { me' with attrResponse := me'.attrResponse.set (strings.TrimLeft attr.Path "/") attr }
      (if attr.Path == abs then some attr else wanted)
    refine ⟨st, ?_, ?_⟩
    · simp only [getFileAttr.loop, hme', Res.bind]
      exact hst
    · intro hne
      have h1 : attr.Path ≠ abs := hne attr (List.mem_cons_self _ _)
      rw [hwanted (fun a ha => hne a (List.mem_cons_of_mem _ ha))]
      simp [h1]

theorem getFileAttr_path_absent (deps : Deps) (srv : FsServer) (me : RpcFs) (name : String)
    (rep : AttrResponse) (hmiss : me.attrResponse.get name = none)
    (hrep : srv.GetAttr ⟨"/" ++ name⟩ = some rep)
    (hwf : ∀ attr ∈ rep.Attrs, attr.HasInfo)
    (habsent : ∀ attr ∈ rep.Attrs, attr.Path ≠ "/" ++ name) :
    ∃ me', getFileAttr deps srv me name = .ret ⟨me', [.GetAttr ⟨"/" ++ name⟩], none⟩ := by
  obtain ⟨st, hst, hwanted⟩ := getFileAttr_loop_returns deps ("/" ++ name) rep.Attrs hwf me none
  refine ⟨st.1, ?_⟩
  simp [getFileAttr, hmiss, hrep, hst, Res.bind, hwanted habsent]

/-- C10: for every state, name and flags with `flags & O_ANYWRITE != 0`,
`Open` returns `(nil, EPERM)`, issues no RPC, and returns the state as it was
(cache, `attrResponse`, `directories` and `fetchMap` included). -/
theorem Open_write_flags_eperm (deps : Deps) (srv : FsServer) (me : RpcFs) (name : String)
    (flags : Nat) (hflags : flags &&& fuse.O_ANYWRITE ≠ 0) :
    Open deps srv me name flags = .ret ⟨me, [], (none, fuse.EPERM)⟩ := by
  simp [Open, hflags]

theorem Open_write_flags_eperm_witness :
    (1 : Nat) &&& fuse.O_ANYWRITE ≠ 0 ∧
      Open sampleDeps srvSample emptyFs "r" 1 = .ret ⟨emptyFs, [], (none, fuse.EPERM)⟩ :=
  ⟨by decide, Open_write_flags_eperm sampleDeps srvSample emptyFs "r" 1 (by decide)⟩

/-- C8: when the master RPC fails for a name that is not cached, `GetAttr`
(non-empty name), `Readlink` and `Open` (flags without write bits) return
status `ENOENT` and `OpenDir` returns `(nil, ENOENT)`; each call returns (no
panic), issues the one failed RPC, and returns the state as it was, so that
`attrResponse` and `directories` are unchanged and the same call asks the
master again. -/
theorem rpc_failure_degrades_to_enoent (deps : Deps) (srv : FsServer) (me : RpcFs)
    (name : String) :
    (me.attrResponse.get name = none → srv.GetAttr ⟨"/" ++ name⟩ = none →
      (name ≠ "" →
        GetAttr deps srv me name
          = .ret ⟨me, [.GetAttr ⟨"/" ++ name⟩], (none, fuse.ENOENT)⟩) ∧
      Readlink deps srv me name
        = .ret ⟨me, [.GetAttr ⟨"/" ++ name⟩], ("", fuse.ENOENT)⟩ ∧
      (∀ flags : Nat, flags &&& fuse.O_ANYWRITE = 0 →
        Open deps srv me name flags
          = .ret ⟨me, [.GetAttr ⟨"/" ++ name⟩], (none, fuse.ENOENT)⟩)) ∧
    (me.directories.get name = none → srv.ReadDir ⟨"/" ++ name⟩ = none →
      OpenDir srv me name = ⟨me, [.ReadDir ⟨"/" ++ name⟩], (none, fuse.ENOENT)⟩) := by
  constructor
  · intro hmiss hfail
    have hget := getFileAttr_rpc_failure deps srv me name hmiss hfail
    refine ⟨?_, ?_, ?_⟩
    · intro hname
      simp [GetAttr, hname, hget, Res.bind]
    · simp [Readlink, hget, Res.bind]
    · intro flags hflags
      simp [Open, hflags, hget, Res.bind]
  · intro hmiss hfail
    simp [OpenDir, GetDir, hmiss, hfail]

theorem rpc_failure_degrades_to_enoent_witness :
    emptyFs.attrResponse.get "x" = none ∧ srvDown.GetAttr ⟨"/" ++ "x"⟩ = none ∧
      Readlink sampleDeps srvDown emptyFs "x"
        = .ret ⟨emptyFs, [.GetAttr ⟨"/" ++ "x"⟩], ("", fuse.ENOENT)⟩ ∧
      emptyFs.directories.get "x" = none ∧ srvDown.ReadDir ⟨"/" ++ "x"⟩ = none ∧
      OpenDir srvDown emptyFs "x" = ⟨emptyFs, [.ReadDir ⟨"/" ++ "x"⟩], (none, fuse.ENOENT)⟩ :=
  ⟨rfl, rfl,
    ((rpc_failure_degrades_to_enoent sampleDeps srvDown emptyFs "x").1 rfl rfl).2.1,
    rfl, rfl,
    (rpc_failure_degrades_to_enoent sampleDeps srvDown emptyFs "x").2 rfl rfl⟩

/-- C7: `Readlink(name)` returns `("", ENOENT)` when the attribute lookup
yields no entry (the RPC fails, or the master's reply lacks the requested path)
or an entry with Status `ENOENT`; `("", EINVAL)` when the entry has Status OK
and its `FileInfo` is not a symlink; `(entry.Link, OK)` when the entry has
Status OK and is a symlink; and it returns Status OK only in that last case. The
lookup itself returns for a cached name, for a failed RPC, and for a reply whose
entries carry a `FileInfo` whenever their Status is OK. -/
theorem Readlink_status (deps : Deps) (srv : FsServer) (me : RpcFs) (name : String) :
    (∀ r, getFileAttr deps srv me name = .ret r →
      (r.val = none →
        Readlink deps srv me name = .ret ⟨r.me, r.rpcs, ("", fuse.ENOENT)⟩) ∧
      (∀ a, r.val = some a → a.Status = fuse.ENOENT →
        Readlink deps srv me name = .ret ⟨r.me, r.rpcs, ("", fuse.ENOENT)⟩) ∧
      (∀ a info, r.val = some a → a.Status = fuse.OK → a.FileInfo = some info →
        info.IsSymlink = false →
        Readlink deps srv me name = .ret ⟨r.me, r.rpcs, ("", fuse.EINVAL)⟩) ∧
      (∀ a info, r.val = some a → a.Status = fuse.OK → a.FileInfo = some info →
        info.IsSymlink = true →
        Readlink deps srv me name = .ret ⟨r.me, r.rpcs, (a.Link, fuse.OK)⟩) ∧
      (∀ out, Readlink deps srv me name = .ret out → out.val.2 = fuse.OK →
        ∃ a info, r.val = some a ∧ a.Status = fuse.OK ∧ a.FileInfo = some info ∧
          info.IsSymlink = true ∧ out.val.1 = a.Link)) ∧
    (∀ a, me.attrResponse.get name = some a →
      getFileAttr deps srv me name = .ret ⟨me, [], some a⟩) ∧
    (me.attrResponse.get name = none → srv.GetAttr ⟨"/" ++ name⟩ = none →
      Readlink deps srv me name
        = .ret ⟨me, [.GetAttr ⟨"/" ++ name⟩], ("", fuse.ENOENT)⟩) ∧
    (∀ rep, me.attrResponse.get name = none → srv.GetAttr ⟨"/" ++ name⟩ = some rep →
      (∀ attr ∈ rep.Attrs, attr.HasInfo) →
      (∃ r, getFileAttr deps srv me name = .ret r) ∧
      ((∀ attr ∈ rep.Attrs, attr.Path ≠ "/" ++ name) →
        ∃ me', Readlink deps srv me name
          = .ret ⟨me', [.GetAttr ⟨"/" ++ name⟩], ("", fuse.ENOENT)⟩)) := by
  refine ⟨?_, ?_, ?_, ?_⟩
  · intro r hr
    refine ⟨?_, ?_, ?_, ?_, ?_⟩
    · intro hnone
      simp [Readlink, hr, Res.bind, hnone]
    · intro a ha hst
      simp [Readlink, hr, Res.bind, ha, hst, fuse.Status.Ok, fuse.ENOENT, fuse.OK]
    · intro a info ha hst hinfo hsym
      simp [Readlink, hr, Res.bind, ha, hst, fuse.Status.Ok, hinfo, hsym]
    · intro a info ha hst hinfo hsym
      simp [Readlink, hr, Res.bind, ha, hst, fuse.Status.Ok, hinfo, hsym]
    · intro out hout hok
      simp only [Readlink, hr, Res.bind] at hout
      cases hval : r.val with
      | none =>
        simp only [hval, Res.ret.injEq] at hout
        subst hout
        simp [fuse.ENOENT, fuse.OK] at hok
      | some a =>
        simp only [hval] at hout
        by_cases hst : a.Status.Ok = true
        · have hstat : a.Status = fuse.OK := by simpa [fuse.Status.Ok] using hst
          cases hinfo : a.FileInfo with
          | none => simp [hst, hinfo] at hout
          | some info =>
            by_cases hsym : info.IsSymlink = true
            · simp only [hst, hinfo, hsym, Bool.not_true, Bool.false_eq_true, if_false,
                Res.ret.injEq] at hout
              subst hout
              exact ⟨a, info, rfl, hstat, hinfo, hsym, rfl⟩
            · simp only [hst, hinfo, hsym, Bool.not_true, Bool.not_false, Bool.false_eq_true,
                if_false, if_true, Res.ret.injEq] at hout
              subst hout
              simp [fuse.EINVAL, fuse.OK] at hok
        · have hne : a.Status ≠ fuse.OK := by simpa [fuse.Status.Ok] using hst
          simp only [hst, Bool.not_false, if_true, Res.ret.injEq] at hout
          subst hout
          exact absurd hok hne
  · intro a ha
    exact getFileAttr_cached deps srv me name a ha
  · intro hmiss hfail
    simp [Readlink, getFileAttr_rpc_failure deps srv me name hmiss hfail, Res.bind]
  · intro rep hmiss hrep hwf
    constructor
    · obtain ⟨st, hst, _⟩ :=
        getFileAttr_loop_returns deps ("/" ++ name) rep.Attrs hwf me none
      exact ⟨⟨st.1, [.GetAttr ⟨"/" ++ name⟩], st.2⟩, by
        simp [getFileAttr, hmiss, hrep, hst, Res.bind]⟩
    · intro habsent
      obtain ⟨me', hme'⟩ := getFileAttr_path_absent deps srv me name rep hmiss hrep hwf habsent
      exact ⟨me', by simp [Readlink, hme', Res.bind]⟩

theorem Readlink_status_witness :
    getFileAttr sampleDeps srvSample emptyFs "l"
        = .ret ⟨{ emptyFs with attrResponse := [("l", linkAttr)] }, [.GetAttr ⟨"/l"⟩],
            some linkAttr⟩ ∧
      linkAttr.Status = fuse.OK ∧
      Readlink sampleDeps srvSample emptyFs "l"
        = .ret ⟨{ emptyFs with attrResponse := [("l", linkAttr)] }, [.GetAttr ⟨"/l"⟩],
            ("target", fuse.OK)⟩ :=
  ⟨by decide, rfl,
    ((Readlink_status sampleDeps srvSample emptyFs "l").1
      ⟨{ emptyFs with attrResponse := [("l", linkAttr)] }, [.GetAttr ⟨"/l"⟩], some linkAttr⟩
      (by decide)).2.2.2.1 linkAttr { Mode := fuse.S_IFLNK ||| 0o777 } rfl rfl rfl (by decide)⟩

theorem GoMap.get_set_self {V : Type} (m : GoMap V) (k : String) (v : V) :
    (m.set k v).get k = some v := by
  simp [GoMap.set, GoMap.get, List.lookup]

theorem GoMap.get_delete_ne {V : Type} (m : GoMap V) (k d : String) (h : k ≠ d) :
    (m.delete d).get k = m.get k := by
  induction m with
  | nil => rfl
  | cons e m ih =>
    obtain ⟨k', v⟩ := e
    simp only [GoMap.delete, GoMap.get] at ih ⊢
    by_cases hk : k' = d
    · subst hk
      have hne : (k == k') = false := by simpa using h
      simp [List.filter_cons, List.lookup, hne, ih]
    · have hk' : (k' != d) = true := by simpa using hk
      simp only [List.filter_cons, hk', if_true, List.lookup]
      cases k == k' <;> simp [ih]

theorem TrimLeft_slash_append (p : String) (h : NoLeadingSlash p) :
    strings.TrimLeft ("/" ++ p) "/" = p := by
  obtain ⟨cs⟩ := p
  cases cs with
  | nil => rfl
  | cons c cs =>
    have hc : c ≠ '/' := by
      intro hc
      apply h
      simp [hc]
    have happ : ("/" ++ (⟨c :: cs⟩ : String)).data = '/' :: c :: cs := rfl
    have hslash : ("/" : String).data = ['/'] := rfl
    simp only [strings.TrimLeft, happ, hslash]
    simp [List.dropWhile, hc]

theorem updateFiles_single (deps : Deps) (me : RpcFs) (r : FileAttr) :
    updateFiles deps me [r] =
      { me with
        attrResponse := me.attrResponse.set (strings.TrimLeft r.Path "/") r,
        directories :=
          if (deps.Deletion r ||
              (match me.attrResponse.get (strings.TrimLeft r.Path "/") with
               | some a => a.Status != fuse.ENOENT
               | none => false)) = true
          then me.directories.delete (filepath.Split (strings.TrimLeft r.Path "/")).1
          else me.directories } := by
  simp only [updateFiles, List.foldl_cons, List.foldl_nil, updateFiles.body]
  split <;> simp

/-- C4 (as amended): for every state, every non-empty `p` without a leading
separator and every `attr` with `attr.Path = "/" + p`, after `Update` with the
batch `[attr]` the call `GetAttr(p)` returns `(attr.FileInfo, attr.Status)`,
issues no RPC and leaves the state as `Update` left it. -/
theorem GetAttr_after_Update (deps : Deps) (srv : FsServer) (me : RpcFs) (p : String)
    (attr : FileAttr) (hp : p ≠ "") (hslash : NoLeadingSlash p) (hpath : attr.Path = "/" ++ p) :
    GetAttr deps srv (Update deps me [attr]) p
      = .ret ⟨Update deps me [attr], [], (attr.FileInfo, attr.Status)⟩ := by
  have hget : (Update deps me [attr]).attrResponse.get p = some attr := by
    simp only [Update, updateFiles_single, hpath, TrimLeft_slash_append p hslash]
    exact GoMap.get_set_self _ _ _
  simp [GetAttr, hp, getFileAttr_cached deps srv _ p attr hget, Res.bind]

theorem GetAttr_after_Update_witness :
    ("f" : String) ≠ "" ∧ NoLeadingSlash "f" ∧ fileAttrV2.Path = "/" ++ "f" ∧
      GetAttr sampleDeps srvDown (Update sampleDeps fsRootListing [fileAttrV2]) "f"
        = .ret ⟨Update sampleDeps fsRootListing [fileAttrV2], [],
            (some { Mode := fuse.S_IFREG ||| 0o644, Size := 2, Mtime_ns := 2 }, fuse.OK)⟩ :=
  ⟨by decide, by decide, by decide,
    GetAttr_after_Update sampleDeps srvDown fsRootListing "f" fileAttrV2 (by decide) (by decide)
      (by decide)⟩

/-- C4 as stated fails: for `p = ""` and the pushed entry `{Path: "/", Status:
ENOENT}`, `GetAttr("")` answers the root directory with Status OK, not the
pushed entry; for `p = "/x"` and the pushed entry with Path `"//x"`, the entry
is stored under `x`, and `GetAttr("/x")` asks the master. -/
theorem GetAttr_after_Update_root_and_slash :
    (rootGoneAttr.Path = "/" ++ "" ∧
      GetAttr sampleDeps srvDown (Update sampleDeps emptyFs [rootGoneAttr]) ""
        = .ret ⟨Update sampleDeps emptyFs [rootGoneAttr], [], (some rootInfo, fuse.OK)⟩ ∧
      (some rootInfo, fuse.OK) ≠ (rootGoneAttr.FileInfo, rootGoneAttr.Status)) ∧
    (slashAttr.Path = "/" ++ "/x" ∧
      (Update sampleDeps emptyFs [slashAttr]).attrResponse = [("x", slashAttr)] ∧
      GetAttr sampleDeps srvDown (Update sampleDeps emptyFs [slashAttr]) "/x"
        = .ret ⟨Update sampleDeps emptyFs [slashAttr], [.GetAttr ⟨"//x"⟩],
            (none, fuse.ENOENT)⟩ ∧
      (none, fuse.ENOENT) ≠ (slashAttr.FileInfo, slashAttr.Status)) := by
  decide

/-- C3 fails on the code: with the listing `{f: 0644}` cached for `a`, after
`Update` with `{Path: "/a/f", Status: ENOENT}` the listing is still cached
under `a`, and `OpenDir("a")` answers from it without any RPC, whatever
`Deletion()` says of the entry and whatever the master would answer. With
`Deletion()` true on `ENOENT` entries the directory enqueued for the flush is
`a/`, the directory part `filepath.Split` returns, with its separator. -/
theorem Update_deletion_keeps_listing (deps : Deps) (srv : FsServer) :
    (Update deps fsListingA [goneAttr]).directories.get "a" = some ⟨[("f", 0o644)]⟩ ∧
      OpenDir srv (Update deps fsListingA [goneAttr]) "a"
        = ⟨Update deps fsListingA [goneAttr], [], (some [⟨"f", 0o644⟩], fuse.OK)⟩ ∧
      sampleDeps.Deletion goneAttr = true ∧
      ([goneAttr].foldl (updateFiles.body sampleDeps) (fsListingA.attrResponse, [])).2
        = ["a/"] := by
  have hdir : (Update deps fsListingA [goneAttr]).directories = [("a", ⟨[("f", 0o644)]⟩)] := by
    have htrim : strings.TrimLeft goneAttr.Path "/" = "a/f" := by decide
    have hsplit : (filepath.Split "a/f").1 = "a/" := by decide
    simp only [Update, updateFiles_single, htrim, hsplit]
    split
    · decide
    · rfl
  have hget : (Update deps fsListingA [goneAttr]).directories.get "a"
      = some ⟨[("f", 0o644)]⟩ := by
    rw [hdir]; decide
  refine ⟨hget, ?_, by decide, by decide⟩
  simp [OpenDir, GetDir, hget]

theorem GoMap.get_delete_self {V : Type} (m : GoMap V) (d : String) :
    (m.delete d).get d = none := by
  induction m with
  | nil => rfl
  | cons e m ih =>
    obtain ⟨k', v⟩ := e
    simp only [GoMap.delete, GoMap.get] at ih ⊢
    by_cases hk : k' = d
    · subst hk
      simp [List.filter_cons, ih]
    · have hk' : (k' != d) = true := by simpa using hk
      have hne : (d == k') = false := by
        simpa using (fun h : d = k' => hk h.symm)
      simp [List.filter_cons, hk', List.lookup, hne, ih]

/-- C5 (as amended): for a batch of one attr that is not a deletion, with `p`
the trimmed path and `d` the directory part that `filepath.Split` returns for
`p` (empty for a path directly under the root, `a/` with its separator for
`a/f`): when `p` is cached in `attrResponse` with a Status other than `ENOENT`
(a pure metadata refresh included), `updateFiles` deletes the key `d` from
`directories` and leaves every other entry as it was, so the listing cached
under `d` is gone and the listing cached under any other key is the one cached
before; when `p` is absent from `attrResponse` or cached there with Status
`ENOENT`, `updateFiles` leaves `directories` as it was. -/
theorem updateFiles_refresh_frame (deps : Deps) (me : RpcFs) (attr : FileAttr)
    (hdel : deps.Deletion attr = false) :
    (∀ a, me.attrResponse.get (strings.TrimLeft attr.Path "/") = some a →
      a.Status ≠ fuse.ENOENT →
      (updateFiles deps me [attr]).directories
          = me.directories.delete (filepath.Split (strings.TrimLeft attr.Path "/")).1 ∧
        (updateFiles deps me [attr]).directories.get
            (filepath.Split (strings.TrimLeft attr.Path "/")).1 = none ∧
        ∀ k, k ≠ (filepath.Split (strings.TrimLeft attr.Path "/")).1 →
          (updateFiles deps me [attr]).directories.get k = me.directories.get k) ∧
    ((∀ a, me.attrResponse.get (strings.TrimLeft attr.Path "/") = some a →
        a.Status = fuse.ENOENT) →
      (updateFiles deps me [attr]).directories = me.directories) := by
  refine ⟨?_, ?_⟩
  · intro a hget hst
    have hflush : (a.Status != fuse.ENOENT) = true := by simpa using hst
    have hdirs : (updateFiles deps me [attr]).directories
        = me.directories.delete (filepath.Split (strings.TrimLeft attr.Path "/")).1 := by
      rw [updateFiles_single]
      simp only [hdel, hget, Bool.false_or, hflush, if_true]
    refine ⟨hdirs, ?_, ?_⟩
    · rw [hdirs]
      exact GoMap.get_delete_self _ _
    · intro k hk
      rw [hdirs]
      exact GoMap.get_delete_ne _ _ _ hk
  · intro h
    rw [updateFiles_single]
    cases hget : me.attrResponse.get (strings.TrimLeft attr.Path "/") with
    | none => simp [hdel]
    | some a => simp [hdel, h a hget]

theorem updateFiles_refresh_frame_witness :
    sampleDeps.Deletion fileAttrV2 = false ∧
      (updateFiles sampleDeps fsRootListing [fileAttrV2]).directories
        = fsRootListing.directories.delete "" ∧
      (updateFiles sampleDeps fsRootListing [fileAttrV2]).directories.get "" = none ∧
      (updateFiles sampleDeps fsRootListing [fileAttrV2]).directories.get "b"
        = fsRootListing.directories.get "b" ∧
      sampleDeps.Deletion nestedAttrV2 = false ∧
      (updateFiles sampleDeps fsNestedListing [nestedAttrV2]).directories
        = fsNestedListing.directories.delete "a/" ∧
      (updateFiles sampleDeps fsNestedListing [nestedAttrV2]).directories.get "a"
        = some ⟨[("f", 0o644)]⟩ ∧
      (updateFiles sampleDeps emptyFs [fileAttrV2]).directories = emptyFs.directories :=
  ⟨by decide,
    ((updateFiles_refresh_frame sampleDeps fsRootListing fileAttrV2 (by decide)).1 fileAttrV1
      (by decide) (by decide)).1,
    ((updateFiles_refresh_frame sampleDeps fsRootListing fileAttrV2 (by decide)).1 fileAttrV1
      (by decide) (by decide)).2.1,
    ((updateFiles_refresh_frame sampleDeps fsRootListing fileAttrV2 (by decide)).1 fileAttrV1
      (by decide) (by decide)).2.2 "b" (by decide),
    by decide,
    ((updateFiles_refresh_frame sampleDeps fsNestedListing nestedAttrV2 (by decide)).1
      nestedAttrV1 (by decide) (by decide)).1,
    ((updateFiles_refresh_frame sampleDeps fsNestedListing nestedAttrV2 (by decide)).1
      nestedAttrV1 (by decide) (by decide)).2.2 "a" (by decide),
    (updateFiles_refresh_frame sampleDeps emptyFs fileAttrV2 (by decide)).2
      (fun a h => by simp [emptyFs, GoMap.get] at h)⟩

/-- C5 as stated fails: `/f` is cached with Status OK as a regular file, the
root listing is cached, and the pushed entry for `/f` is not a deletion, has
Status OK and the same file type; `updateFiles` removes the root listing from
`directories`. -/
theorem updateFiles_refresh_flushes_parent :
    sampleDeps.Deletion fileAttrV2 = false ∧ fileAttrV2.Status = fuse.OK ∧
      fsRootListing.attrResponse.get (strings.TrimLeft fileAttrV2.Path "/") = some fileAttrV1 ∧
      fileAttrV1.Status = fuse.OK ∧
      fileAttrV1.FileInfo.map (fun i => i.Mode &&& fuse.S_IFMT)
        = fileAttrV2.FileInfo.map (fun i => i.Mode &&& fuse.S_IFMT) ∧
      fsRootListing.directories.get "" = some ⟨[("f", 0o644)]⟩ ∧
      (updateFiles sampleDeps fsRootListing [fileAttrV2]).directories.get "" = none ∧
      (updateFiles sampleDeps fsRootListing [fileAttrV2]).directories
        ≠ fsRootListing.directories := by
  decide

/-! ## Theorems: the shim -/

theorem main_body_eq (fs : String → Bool) (base binary c : String) :
    main.body fs base binary c
      = if usableDir fs base c = true then filepath.Join c base else binary := by
  simp only [main.body, usableDir]
  by_cases h1 : (filepath.Split c).2 = "termite"
  · simp [h1]
  · by_cases h2 : os.Stat fs (filepath.Join c base) = true
    · simp [h1, h2]
    · simp [h1, h2]

theorem main_loop_spec (fs : String → Bool) (base : String) (dirs : List String)
    (init : String) :
    ((∀ d ∈ dirs, usableDir fs base d = false) →
        dirs.foldl (main.body fs base) init = init) ∧
      ((∃ d ∈ dirs, usableDir fs base d = true) →
        ∃ d ∈ dirs, usableDir fs base d = true ∧
          dirs.foldl (main.body fs base) init = filepath.Join d base) := by
  induction dirs generalizing init with
  | nil =>
    exact ⟨fun _ => rfl, fun ⟨d, hd, _⟩ => absurd hd (List.not_mem_nil d)⟩
  | cons c dirs ih =>
    obtain ⟨ihnone, ihsome⟩ := ih (main.body fs base init c)
    constructor
    · intro hnone
      simp only [List.foldl_cons]
      rw [ihnone (fun d hd => hnone d (List.mem_cons_of_mem _ hd)), main_body_eq,
        hnone c (List.mem_cons_self _ _)]
      simp
    · intro _
      simp only [List.foldl_cons]
      by_cases hrest : ∃ d ∈ dirs, usableDir fs base d = true
      · obtain ⟨d, hd, hok, heq⟩ := ihsome hrest
        exact ⟨d, List.mem_cons_of_mem _ hd, hok, heq⟩
      · have hnone : ∀ d ∈ dirs, usableDir fs base d = false := by
          intro d hd
          cases hu : usableDir fs base d with
          | false => rfl
          | true => exact absurd ⟨d, hd, hu⟩ hrest
        have hc : usableDir fs base c = true := by
          rename_i hex
          obtain ⟨d, hd, hok⟩ := hex
          rcases List.mem_cons.mp hd with rfl | hd'
          · exact hok
          · rw [hnone d hd'] at hok
            exact absurd hok (by decide)
        refine ⟨c, List.mem_cons_self _ _, hc, ?_⟩
        rw [ihnone hnone, main_body_eq, hc]
        simp

theorem usableDir_join_ne_empty (fs : String → Bool) (base d : String)
    (h : usableDir fs base d = true) : filepath.Join d base ≠ "" := by
  simp only [usableDir, os.Stat, Bool.and_eq_true, bne_iff_ne, ne_eq] at h
  exact h.2.1

/-- What the loop of `main` guarantees for every `PATH`, invoked name and file
system, with the last element of a `PATH` entry taken as the source takes it
(`dirBase`, what `filepath.Split` returns after the final separator): the
resolved binary is `Join(d, base)` for an entry `d` whose last element is not
`termite` and for which `Join(d, base)` exists; `binary` is empty, and `main`
ends in `log.Fatal` before the request is built, exactly when `PATH` has no
such entry; and with `PATH=/x/termite:/usr/bin`, base `gcc` and both
`/x/termite/gcc` and `/usr/bin/gcc` present, `Binary` is `/usr/bin/gcc`. -/
theorem main_binary_resolution (fs : String → Bool) (path args0 : String) :
    (main.binary fs path args0 ≠ "" →
      ∃ d ∈ filepath.SplitList path,
        (filepath.Split d).2 ≠ "termite" ∧
        os.Stat fs (filepath.Join d (filepath.Split args0).2) = true ∧
        main.binary fs path args0 = filepath.Join d (filepath.Split args0).2) ∧
    (main.binary fs path args0 = "" ↔
      ¬ ∃ d ∈ filepath.SplitList path,
        (filepath.Split d).2 ≠ "termite" ∧
        os.Stat fs (filepath.Join d (filepath.Split args0).2) = true) ∧
    ((∀ d ∈ filepath.SplitList path,
        os.Stat fs (filepath.Join d (filepath.Split args0).2) = true →
        (filepath.Split d).2 = "termite") →
      main.binary fs path args0 = "") ∧
    (∀ args environ wd, main.binary fs path args0 = "" →
      main fs path args0 args environ wd = .error "could not find") ∧
    (∀ args environ wd, main.binary fs path args0 ≠ "" →
      main fs path args0 args environ (some wd)
        = .ok ⟨main.binary fs path args0, main.binary fs path args0 :: args, environ, wd⟩) ∧
    main.binary fsTwoGcc "/x/termite:/usr/bin" "gcc" = "/usr/bin/gcc" := by
  have hspec := main_loop_spec fs (filepath.Split args0).2 (filepath.SplitList path) ""
  have husable : ∀ d, usableDir fs (filepath.Split args0).2 d = true ↔
      ((filepath.Split d).2 ≠ "termite" ∧
        os.Stat fs (filepath.Join d (filepath.Split args0).2) = true) := by
    intro d
    simp [usableDir]
  have hiff : main.binary fs path args0 = "" ↔
      ¬ ∃ d ∈ filepath.SplitList path,
        (filepath.Split d).2 ≠ "termite" ∧
        os.Stat fs (filepath.Join d (filepath.Split args0).2) = true := by
    constructor
    · rintro hempty ⟨d, hd, hok⟩
      obtain ⟨d', _, hok', heq⟩ := hspec.2 ⟨d, hd, (husable d).2 hok⟩
      have hbin : main.binary fs path args0 = filepath.Join d' (filepath.Split args0).2 := heq
      exact usableDir_join_ne_empty fs _ d' hok' (hbin ▸ hempty)
    · intro hnone
      refine hspec.1 (fun d hd => ?_)
      cases hu : usableDir fs (filepath.Split args0).2 d with
      | false => rfl
      | true => exact absurd ⟨d, hd, (husable d).1 hu⟩ hnone
  refine ⟨?_, hiff, ?_, ?_, ?_, by decide⟩
  · intro hne
    have hex : ∃ d ∈ filepath.SplitList path,
        (filepath.Split d).2 ≠ "termite" ∧
        os.Stat fs (filepath.Join d (filepath.Split args0).2) = true := by
      by_contra hcon
      exact hne (hiff.2 hcon)
    obtain ⟨d, hd, hok⟩ := hex
    obtain ⟨d', hd', hok', heq⟩ := hspec.2 ⟨d, hd, (husable d).2 hok⟩
    exact ⟨d', hd', ((husable d').1 hok').1, ((husable d').1 hok').2, heq⟩
  · intro honly
    refine hiff.2 ?_
    rintro ⟨d, hd, hne, hst⟩
    exact hne (honly d hd hst)
  · intro args environ wd hempty
    simp [main, hempty]
  · intro args environ wd hne
    simp [main, hne]

theorem main_binary_resolution_witness :
    main.binary fsShimOnly "/x/termite:/usr/bin" "/x/termite/gcc" = "" ∧
      main fsShimOnly "/x/termite:/usr/bin" "/x/termite/gcc" [] [] (some "/src")
        = .error "could not find" :=
  ⟨by decide,
    (main_binary_resolution fsShimOnly "/x/termite:/usr/bin" "/x/termite/gcc").2.2.2.1
      [] [] (some "/src") (by decide)⟩

/-- C9 fails on the code: with `PATH=/x/termite/:/usr/bin`, invoked name `gcc`,
and `gcc` present only in the directory `/x/termite`, the `PATH` entry
`/x/termite/` names a directory whose basename is `termite` (its cleaned form
is `/x/termite`), but `filepath.Split` returns the empty string after its
final separator, so the test `dirBase == "termite"` does not skip it: the shim
resolves `Binary = /x/termite/gcc` and goes on with the request instead of
failing. Written without the trailing separator the same entry is skipped and
the resolution fails. -/
theorem main_binary_trailing_separator :
    filepath.SplitList "/x/termite/:/usr/bin" = ["/x/termite/", "/usr/bin"] ∧
      filepath.Clean "/x/termite/" = "/x/termite" ∧
      (filepath.Split (filepath.Clean "/x/termite/")).2 = "termite" ∧
      (filepath.Split "/x/termite/").2 = "" ∧
      fsShimOnly "/x/termite/gcc" = true ∧ fsShimOnly "/usr/bin/gcc" = false ∧
      main.binary fsShimOnly "/x/termite/:/usr/bin" "gcc" = "/x/termite/gcc" ∧
      main fsShimOnly "/x/termite/:/usr/bin" "gcc" [] [] (some "/src")
        = .ok ⟨"/x/termite/gcc", ["/x/termite/gcc"], [], "/src"⟩ ∧
      main.binary fsShimOnly "/x/termite:/usr/bin" "gcc" = "" ∧
      main fsShimOnly "/x/termite:/usr/bin" "gcc" [] [] (some "/src")
        = .error "could not find" :=
  ⟨by decide, by decide, by decide, by decide, by decide, by decide, by decide, rfl,
    by decide, rfl⟩

/-! ## Theorems: `FetchHash` -/

theorem GoMap.get_set_ne {V : Type} (m : GoMap V) (k d : String) (v : V) (h : k ≠ d) :
    (m.set d v).get k = m.get k := by
  have hne : (k == d) = false := by simpa using h
  have := GoMap.get_delete_ne m k d h
  simp only [GoMap.delete, GoMap.get] at this
  simp [GoMap.set, GoMap.get, List.lookup, hne, this]

theorem HasHash_store (c : ContentCache) (h k : String) (hk : c.HasHash k = true) :
    (c.store h).HasHash k = true := by
  unfold ContentCache.store
  split
  · exact hk
  · simp only [ContentCache.HasHash] at hk ⊢
    have hmem : k ∈ c.hashes := by simpa using hk
    simp [hmem]

theorem FetchInv.move {s : FetchState} (hinv : FetchInv s) (t : Nat) (p' : Pc)
    (m' : Option Nat)
    (hm : ∀ u, u ≠ t → (s.pc u).holdsMutex = true → m' = some u)
    (hh : p'.holdsMutex = true → m' = some t)
    (hf : ∀ h, p'.inFlight h = true → (s.pc t).inFlight h = true)
    (hmark : ∀ h, p' = .mark h → s.flag h = false)
    (hcheck : ∀ h, p' = .check h → s.flag h = false ∨ s.cache.HasHash h = true) :
    FetchInv { s with pc := Function.update s.pc t p', mutex := m' } := by
  constructor
  · intro u hu
    by_cases hut : u = t
    · subst hut
      simp only [Function.update_same] at hu
      exact hh hu
    · simp only [Function.update_noteq hut] at hu
      exact hm u hut hu
  · intro u h hu
    by_cases hut : u = t
    · subst hut
      simp only [Function.update_same] at hu
      exact hinv.flagged u h (hf h hu)
    · simp only [Function.update_noteq hut] at hu
      exact hinv.flagged u h hu
  · intro u v h hu hv
    have hu' : (s.pc u).inFlight h = true := by
      by_cases hut : u = t
      · subst hut
        simp only [Function.update_same] at hu
        exact hf h hu
      · simpa only [Function.update_noteq hut] using hu
    have hv' : (s.pc v).inFlight h = true := by
      by_cases hvt : v = t
      · subst hvt
        simp only [Function.update_same] at hv
        exact hf h hv
      · simpa only [Function.update_noteq hvt] using hv
    exact hinv.unique u v h hu' hv'
  · intro u h hu
    by_cases hut : u = t
    · subst hut
      simp only [Function.update_same] at hu
      exact hmark h hu
    · simp only [Function.update_noteq hut] at hu
      exact hinv.marking u h hu
  · intro u h hu
    by_cases hut : u = t
    · subst hut
      simp only [Function.update_same] at hu
      exact hcheck h hu
    · simp only [Function.update_noteq hut] at hu
      exact hinv.checking u h hu

theorem FetchInv.store {s : FetchState} (hinv : FetchInv s) (hash : String) :
    FetchInv { s with cache := s.cache.store hash } := by
  constructor
  · exact hinv.holder
  · exact hinv.flagged
  · exact hinv.unique
  · exact hinv.marking
  · intro t h ht
    rcases hinv.checking t h ht with hflag | hhas
    · exact Or.inl hflag
    · exact Or.inr (HasHash_store _ _ _ hhas)

theorem FetchInv.others_release {s : FetchState} (hinv : FetchInv s) (t : Nat)
    (ht : (s.pc t).holdsMutex = true) (m' : Option Nat) :
    ∀ u, u ≠ t → (s.pc u).holdsMutex = true → m' = some u := by
  intro u hut hu
  have h1 := hinv.holder t ht
  have h2 := hinv.holder u hu
  rw [h1] at h2
  exact absurd (Option.some.inj h2).symm hut

theorem FetchInv.others_free {s : FetchState} (hinv : FetchInv s) (hfree : s.mutex = none)
    (t : Nat) (m' : Option Nat) :
    ∀ u, u ≠ t → (s.pc u).holdsMutex = true → m' = some u := by
  intro u _ hu
  have h2 := hinv.holder u hu
  rw [hfree] at h2
  exact absurd h2 (by simp)

theorem flag_set_self (s : FetchState) (h : String) :
    ({ s with fetchMap := s.fetchMap.set h true } : FetchState).flag h = true := by
  simp [FetchState.flag, GoMap.get_set_self]

theorem flag_set_ne (s : FetchState) (h k : String) (hne : k ≠ h) (pc : Nat → Pc) :
    ({ s with fetchMap := s.fetchMap.set h true, pc := pc } : FetchState).flag k = s.flag k := by
  simp [FetchState.flag, GoMap.get_set_ne _ _ _ _ hne]

theorem flag_delete_self (s : FetchState) (h : String) (pc : Nat → Pc) :
    ({ s with fetchMap := s.fetchMap.delete h, pc := pc } : FetchState).flag h = false := by
  simp [FetchState.flag, GoMap.get_delete_self]

theorem flag_delete_ne (s : FetchState) (h k : String) (hne : k ≠ h) (pc : Nat → Pc) :
    ({ s with fetchMap := s.fetchMap.delete h, pc := pc } : FetchState).flag k = s.flag k := by
  simp [FetchState.flag, GoMap.get_delete_ne _ _ _ hne]

/-- The step `me.fetchMap[key] = true` by the goroutine at `mark`. -/
theorem FetchInv.mark {s : FetchState} (hinv : FetchInv s) (t : Nat) (h : String)
    (ht : s.pc t = .mark h) :
    FetchInv { s with fetchMap := s.fetchMap.set h true,
                      pc := Function.update s.pc t (.started h) } := by
  have hflag := hinv.marking t h ht
  have hhold : s.mutex = some t := hinv.holder t (by rw [ht]; rfl)
  have hother : ∀ u, u ≠ t → (s.pc u).holdsMutex = false := by
    intro u hut
    cases hu : (s.pc u).holdsMutex with
    | false => rfl
    | true =>
      have := hinv.holder u hu
      rw [hhold] at this
      exact absurd (Option.some.inj this).symm hut
  have hnone : ∀ u, (s.pc u).inFlight h = false := by
    intro u
    cases hu : (s.pc u).inFlight h with
    | false => rfl
    | true =>
      have := hinv.flagged u h hu
      rw [hflag] at this
      exact absurd this (by simp)
  constructor
  · intro u hu
    by_cases hut : u = t
    · subst hut; exact hhold
    · simp only [Function.update_noteq hut] at hu
      exact hinv.holder u hu
  · intro u k hu
    by_cases hkh : k = h
    · subst hkh; exact flag_set_self s k
    · rw [flag_set_ne s h k hkh]
      by_cases hut : u = t
      · subst hut
        simp only [Function.update_same, Pc.inFlight, beq_iff_eq] at hu
        exact absurd hu.symm hkh
      · simp only [Function.update_noteq hut] at hu
        exact hinv.flagged u k hu
  · intro u v k hu hv
    by_cases hut : u = t
    · by_cases hvt : v = t
      · rw [hut, hvt]
      · subst hut
        simp only [Function.update_same, Pc.inFlight, beq_iff_eq] at hu
        simp only [Function.update_noteq hvt] at hv
        subst hu
        rw [hnone v] at hv
        exact absurd hv (by simp)
    · by_cases hvt : v = t
      · subst hvt
        simp only [Function.update_same, Pc.inFlight, beq_iff_eq] at hv
        simp only [Function.update_noteq hut] at hu
        subst hv
        rw [hnone u] at hu
        exact absurd hu (by simp)
      · simp only [Function.update_noteq hut] at hu
        simp only [Function.update_noteq hvt] at hv
        exact hinv.unique u v k hu hv
  · intro u k hu
    by_cases hut : u = t
    · subst hut
      simp only [Function.update_same] at hu
      exact absurd hu (by simp)
    · simp only [Function.update_noteq hut] at hu
      have := hother u hut
      rw [hu] at this
      exact absurd this (by simp [Pc.holdsMutex])
  · intro u k hu
    by_cases hut : u = t
    · subst hut
      simp only [Function.update_same] at hu
      exact absurd hu (by simp)
    · simp only [Function.update_noteq hut] at hu
      have := hother u hut
      rw [hu] at this
      exact absurd this (by simp [Pc.holdsMutex])

/-- The first half of the deferred function, `me.fetchMap[key] = false, false`,
by the goroutine at `deferred`. -/
theorem FetchInv.clear {s : FetchState} (hinv : FetchInv s) (t : Nat) (h : String) (err : Bool)
    (ht : s.pc t = .deferred h err) :
    FetchInv { s with fetchMap := s.fetchMap.delete h,
                      pc := Function.update s.pc t (.unlock h err) } := by
  have hhold : s.mutex = some t := hinv.holder t (by rw [ht]; rfl)
  have hfl : (s.pc t).inFlight h = true := by rw [ht]; simp [Pc.inFlight]
  have hother : ∀ u, u ≠ t → (s.pc u).holdsMutex = false := by
    intro u hut
    cases hu : (s.pc u).holdsMutex with
    | false => rfl
    | true =>
      have := hinv.holder u hu
      rw [hhold] at this
      exact absurd (Option.some.inj this).symm hut
  constructor
  · intro u hu
    by_cases hut : u = t
    · subst hut; exact hhold
    · simp only [Function.update_noteq hut] at hu
      exact hinv.holder u hu
  · intro u k hu
    by_cases hut : u = t
    · subst hut
      simp only [Function.update_same, Pc.inFlight] at hu
      exact absurd hu (by simp)
    · simp only [Function.update_noteq hut] at hu
      have hkh : k ≠ h := by
        intro hkh
        subst hkh
        exact hut (hinv.unique u t k hu hfl)
      rw [flag_delete_ne s h k hkh]
      exact hinv.flagged u k hu
  · intro u v k hu hv
    by_cases hut : u = t
    · subst hut
      simp only [Function.update_same, Pc.inFlight] at hu
      exact absurd hu (by simp)
    · by_cases hvt : v = t
      · subst hvt
        simp only [Function.update_same, Pc.inFlight] at hv
        exact absurd hv (by simp)
      · simp only [Function.update_noteq hut] at hu
        simp only [Function.update_noteq hvt] at hv
        exact hinv.unique u v k hu hv
  · intro u k hu
    by_cases hut : u = t
    · subst hut
      simp only [Function.update_same] at hu
      exact absurd hu (by simp)
    · simp only [Function.update_noteq hut] at hu
      have := hother u hut
      rw [hu] at this
      exact absurd this (by simp [Pc.holdsMutex])
  · intro u k hu
    by_cases hut : u = t
    · subst hut
      simp only [Function.update_same] at hu
      exact absurd hu (by simp)
    · simp only [Function.update_noteq hut] at hu
      have := hother u hut
      rw [hu] at this
      exact absurd this (by simp [Pc.holdsMutex])

theorem FetchInv.step {s s' : FetchState} {ev : Event} (hinv : FetchInv s)
    (hstep : step s ev = some s') : FetchInv s' := by
  cases ev with
  | call t hash =>
    simp only [Termite.step] at hstep
    cases hpc : s.pc t <;> simp only [hpc, reduceCtorEq] at hstep
    cases hstep
    exact hinv.move t (.lock hash) s.mutex (fun u _ hu => hinv.holder u hu)
      (by simp [Pc.holdsMutex]) (by simp [Pc.inFlight]) (by simp) (by simp)
  | run t =>
    simp only [Termite.step] at hstep
    cases hpc : s.pc t with
    | idle => simp [hpc] at hstep
    | wait h => simp [hpc] at hstep
    | fetch h => simp [hpc] at hstep
    | deferred h err => simp [hpc] at hstep
    | lock h =>
      simp only [hpc] at hstep
      by_cases hfree : s.mutex = none
      · simp only [hfree, if_true, Option.some.injEq] at hstep
        subst hstep
        have := hinv.move t (.loop h) (some t) (hinv.others_free hfree t _)
          (fun _ => rfl) (by simp [Pc.inFlight]) (by simp) (by simp)
        simpa [hfree] using this
      · simp [hfree] at hstep
    | wake h =>
      simp only [hpc] at hstep
      by_cases hfree : s.mutex = none
      · simp only [hfree, if_true, Option.some.injEq] at hstep
        subst hstep
        have := hinv.move t (.loop h) (some t) (hinv.others_free hfree t _)
          (fun _ => rfl) (by simp [Pc.inFlight]) (by simp) (by simp)
        simpa [hfree] using this
      · simp [hfree] at hstep
    | relock h err =>
      simp only [hpc] at hstep
      by_cases hfree : s.mutex = none
      · simp only [hfree, if_true, Option.some.injEq] at hstep
        subst hstep
        have := hinv.move t (.deferred h err) (some t) (hinv.others_free hfree t _)
          (fun _ => rfl) (by rw [hpc]; simp [Pc.inFlight]) (by simp) (by simp)
        simpa [hfree] using this
      · simp [hfree] at hstep
    | loop h =>
      have hhold : (s.pc t).holdsMutex = true := by rw [hpc]; rfl
      simp only [hpc] at hstep
      by_cases hwait : (s.flag h && !s.cache.HasHash h) = true
      · simp only [hwait, if_true, Option.some.injEq] at hstep
        subst hstep
        exact hinv.move t (.wait h) none (hinv.others_release t hhold _)
          (by simp [Pc.holdsMutex]) (by simp [Pc.inFlight]) (by simp) (by simp)
      · simp only [hwait, Bool.false_eq_true, if_false, Option.some.injEq] at hstep
        subst hstep
        refine hinv.move t (.check h) s.mutex (fun u _ hu => hinv.holder u hu)
          (fun _ => hinv.holder t hhold) (by simp [Pc.inFlight]) (by simp) ?_
        intro k hk
        cases hk
        cases hfl : s.flag h with
        | false => exact Or.inl rfl
        | true =>
          right
          cases hhas : s.cache.HasHash h with
          | true => rfl
          | false => simp [hfl, hhas] at hwait
    | check h =>
      have hhold : (s.pc t).holdsMutex = true := by rw [hpc]; rfl
      simp only [hpc] at hstep
      by_cases hhas : s.cache.HasHash h = true
      · simp only [hhas, if_true, Option.some.injEq] at hstep
        subst hstep
        exact hinv.move t (.unlock h false) s.mutex (fun u _ hu => hinv.holder u hu)
          (fun _ => hinv.holder t hhold) (by simp [Pc.inFlight]) (by simp) (by simp)
      · simp only [hhas, Bool.false_eq_true, if_false, Option.some.injEq] at hstep
        subst hstep
        refine hinv.move t (.mark h) s.mutex (fun u _ hu => hinv.holder u hu)
          (fun _ => hinv.holder t hhold) (by simp [Pc.inFlight]) ?_ (by simp)
        intro k hk
        cases hk
        rcases hinv.checking t h hpc with hfl | hh
        · exact hfl
        · exact absurd hh hhas
    | mark h =>
      simp only [hpc, Option.some.injEq] at hstep
      subst hstep
      exact hinv.mark t h hpc
    | started h =>
      have hhold : (s.pc t).holdsMutex = true := by rw [hpc]; rfl
      simp only [hpc, Option.some.injEq] at hstep
      subst hstep
      exact hinv.move t (.fetch h) none (hinv.others_release t hhold _)
        (by simp [Pc.holdsMutex]) (by rw [hpc]; simp [Pc.inFlight]) (by simp) (by simp)
    | unlock h err =>
      have hhold : (s.pc t).holdsMutex = true := by rw [hpc]; rfl
      simp only [hpc, Option.some.injEq] at hstep
      subst hstep
      exact hinv.move t .idle none (hinv.others_release t hhold _)
        (by simp [Pc.holdsMutex]) (by simp [Pc.inFlight]) (by simp) (by simp)
  | fetched t ok =>
    simp only [Termite.step] at hstep
    cases hpc : s.pc t <;> simp only [hpc, reduceCtorEq] at hstep
    rename_i h
    simp only [Option.some.injEq] at hstep
    subst hstep
    have hcache : FetchInv { s with cache := if ok = true then s.cache.store h else s.cache } := by
      cases ok
      · exact hinv
      · exact hinv.store h
    exact hcache.move t (.relock h (!ok)) s.mutex (fun u _ hu => hinv.holder u hu)
      (by simp [Pc.holdsMutex]) (by show ∀ k, _ → (s.pc t).inFlight k = true
                                    rw [hpc]; simp [Pc.inFlight]) (by simp) (by simp)
  | deferred t woken =>
    simp only [Termite.step] at hstep
    cases hpc : s.pc t <;> simp only [hpc, reduceCtorEq] at hstep
    rename_i h err
    have hclear := hinv.clear t h err hpc
    cases woken with
    | none =>
      simp only [signal, Option.some.injEq] at hstep
      subst hstep
      exact hclear
    | some u =>
      simp only [signal] at hstep
      cases hu : Function.update s.pc t (Pc.unlock h err) u <;>
        simp only [hu, reduceCtorEq] at hstep
      rename_i k
      simp only [Option.some.injEq] at hstep
      subst hstep
      exact hclear.move u (.wake k) s.mutex (fun v _ hv => hclear.holder v hv)
        (by simp [Pc.holdsMutex]) (by simp [Pc.inFlight]) (by simp) (by simp)
  | store hash =>
    simp only [Termite.step, Option.some.injEq] at hstep
    subst hstep
    exact hinv.store hash

theorem FetchInv.init (cache : ContentCache) : FetchInv (FetchState.init cache) := by
  constructor <;> simp [FetchState.init, Pc.holdsMutex, Pc.inFlight]

theorem FetchInv.foldl (schedule : List Event) (s : FetchState) (hinv : FetchInv s) :
    FetchInv (schedule.foldl (fun s ev => (Termite.step s ev).getD s) s) := by
  induction schedule generalizing s with
  | nil => exact hinv
  | cons ev schedule ih =>
    simp only [List.foldl_cons]
    apply ih
    cases hstep : Termite.step s ev with
    | none => exact hinv
    | some s' => exact hinv.step hstep

/-- C6: in the state reached by any schedule of any number of goroutines
calling `FetchHash` on one `RpcFs` (calls, statements, returns of `fetchOnce`,
signals and stores into the shared cache, in any order; a stored blob stays
stored), two goroutines that are both inside `fetchOnce` for the same hash are
the same goroutine: at most one caller is executing `fetchOnce` for a hash. -/
theorem FetchHash_at_most_one_fetch (cache : ContentCache) (schedule : List Event)
    (t u : Nat) (hash : String)
    (ht : (runSchedule cache schedule).pc t = .fetch hash)
    (hu : (runSchedule cache schedule).pc u = .fetch hash) : t = u := by
  have hinv : FetchInv (runSchedule cache schedule) :=
    FetchInv.foldl schedule _ (FetchInv.init cache)
  exact hinv.unique t u hash (by rw [ht]; simp [Pc.inFlight]) (by rw [hu]; simp [Pc.inFlight])

theorem FetchHash_at_most_one_fetch_witness :
    (runSchedule ⟨"/cache", []⟩ sampleSchedule).pc 0 = .fetch "h" ∧
      (runSchedule ⟨"/cache", []⟩ sampleSchedule).pc 1 = .wait "h" ∧
      (runSchedule ⟨"/cache", []⟩ sampleSchedule).pc 1 ≠ .fetch "h" :=
  ⟨by decide, by decide, fun h1 =>
    absurd (FetchHash_at_most_one_fetch ⟨"/cache", []⟩ sampleSchedule 0 1 "h" (by decide) h1)
      (by decide)⟩

end Termite
